import Mathlib

/-
Verification of the AskBeeves block-cache engine against its specification.

The development shallowly embeds the TypeScript sources:
  * src/bloom.ts  (bloom filter, base64 packing)      — section Bloom
  * src/storage.ts (exact profile: getBlockers, lookupBlockingInfo,
    getSyncStatus, updateSyncStatus)                  — section Storage
  * src/background.ts (performFullSync, pruneCache, safeSaveBlockCache,
    estimateObjectSize)                               — section Background

Machine integers are modelled as Nat with explicit reductions mod 2 ^ 32
where the JavaScript semantics truncates (Math.imul, `>>> 0`).  Strings
handed to the hash are modelled by their lists of UTF-16 code units.
-/

namespace AskBeeves

/-! ## Base64 (the WHATWG btoa / atob primitives used by bloom.ts)

`uint8ArrayToBase64` in bloom.ts builds a binary string whose char codes are
exactly the bytes of the array and feeds it to `btoa`; `base64ToUint8Array`
applies `atob` and reads the char codes back.  We therefore model the pair
directly on lists of byte values. -/

def b64alphabet : List Char :=
  "ABCDEFGHIJKLMNOPQRSTUVWXYZabcdefghijklmnopqrstuvwxyz0123456789+/".toList

/-- The i-th character of the base64 alphabet (i < 64 in every use). -/
def b64char (i : Nat) : Char := b64alphabet.getD i '?'

/-- Value of a base64 character.  On characters outside the alphabet `atob`
would throw; they never occur in strings produced by `btoa`, and the `% 64`
merely keeps the function total with an in-range result. -/
def b64val (c : Char) : Nat := b64alphabet.indexOf c % 64

/-- WHATWG `btoa` on the list of char codes of the binary string:
three bytes become four alphabet characters, a trailing group of one or two
bytes is padded with `=`. -/
def btoa : List Nat → List Char
  | [] => []
  | [a] => [b64char (a / 4), b64char (a % 4 * 16), '=', '=']
  | [a, b] => [b64char (a / 4), b64char (a % 4 * 16 + b / 16), b64char (b % 16 * 4), '=']
  | a :: b :: c :: rest =>
    b64char (a / 4) :: b64char (a % 4 * 16 + b / 16) :: b64char (b % 16 * 4 + c / 64) ::
      b64char (c % 64) :: btoa rest

/-- WHATWG `atob`, producing the char codes of the decoded binary string.
Groups of four characters yield three bytes; `=` padding yields one or two. -/
def atob : List Char → List Nat
  | c1 :: c2 :: c3 :: c4 :: rest =>
    if c3 = '=' then [b64val c1 * 4 + b64val c2 / 16]
    else if c4 = '=' then
      [b64val c1 * 4 + b64val c2 / 16, b64val c2 % 16 * 16 + b64val c3 / 4]
    else
      (b64val c1 * 4 + b64val c2 / 16) :: (b64val c2 % 16 * 16 + b64val c3 / 4) ::
        (b64val c3 % 4 * 64 + b64val c4) :: atob rest
  | _ => []

/-- bloom.ts `uint8ArrayToBase64`. -/
def uint8ArrayToBase64 (bytes : List Nat) : String := String.mk (btoa bytes)

/-- bloom.ts `base64ToUint8Array`. -/
def base64ToUint8Array (base64 : String) : List Nat := atob base64.toList

theorem b64val_b64char : ∀ i < 64, b64val (b64char i) = i := by decide

theorem b64char_ne_pad : ∀ i < 64, b64char i ≠ '=' := by decide

theorem b64val_lt (c : Char) : b64val c < 64 := Nat.mod_lt _ (by norm_num)

theorem atob_lt_256 (s : List Char) : ∀ b ∈ atob s, b < 256 := by
  induction s using atob.induct with
  | case1 c1 c2 c4 rest =>
    intro b hb
    simp only [atob, if_pos rfl] at hb
    rcases List.mem_cons.1 hb with h | h
    · have := b64val_lt c1; have := b64val_lt c2; omega
    · simp at h
  | case2 c1 c2 c3 rest h3 =>
    intro b hb
    simp only [atob, if_neg h3, if_pos rfl] at hb
    rcases List.mem_cons.1 hb with h | h
    · have := b64val_lt c1; have := b64val_lt c2; omega
    · rcases List.mem_cons.1 h with h | h
      · have := b64val_lt c2; have := b64val_lt c3; omega
      · simp at h
  | case3 c1 c2 c3 c4 rest h3 h4 ih =>
    intro b hb
    simp only [atob, if_neg h3, if_neg h4] at hb
    rcases List.mem_cons.1 hb with h | h
    · have := b64val_lt c1; have := b64val_lt c2; omega
    · rcases List.mem_cons.1 h with h | h
      · have := b64val_lt c2; have := b64val_lt c3; omega
      · rcases List.mem_cons.1 h with h | h
        · have := b64val_lt c3; have := b64val_lt c4; omega
        · exact ih b h
  | case4 t ht =>
    intro b hb
    rw [atob.eq_def] at hb
    rcases t with _ | ⟨x1, _ | ⟨x2, _ | ⟨x3, _ | ⟨x4, u⟩⟩⟩⟩
    · simp at hb
    · simp at hb
    · simp at hb
    · simp at hb
    · exact absurd rfl (ht x1 x2 x3 x4 u)

theorem atob_btoa (l : List Nat) (h : ∀ b ∈ l, b < 256) : atob (btoa l) = l := by
  induction l using btoa.induct with
  | case1 => rfl
  | case2 a =>
    have ha : a < 256 := h a (by simp)
    simp only [btoa, atob, if_true]
    rw [b64val_b64char (a / 4) (by omega), b64val_b64char (a % 4 * 16) (by omega)]
    simp only [List.cons.injEq, and_true]
    omega
  | case3 a b =>
    have ha : a < 256 := h a (by simp)
    have hb : b < 256 := h b (by simp)
    simp only [btoa, atob, if_true]
    rw [if_neg (b64char_ne_pad (b % 16 * 4) (by omega))]
    rw [b64val_b64char (a / 4) (by omega), b64val_b64char (a % 4 * 16 + b / 16) (by omega),
      b64val_b64char (b % 16 * 4) (by omega)]
    simp only [List.cons.injEq, and_true]
    exact ⟨by omega, by omega⟩
  | case4 a b c rest ih =>
    have ha : a < 256 := h a (by simp)
    have hb : b < 256 := h b (by simp)
    have hc : c < 256 := h c (by simp)
    simp only [btoa, atob]
    rw [if_neg (b64char_ne_pad (b % 16 * 4 + c / 64) (by omega)),
      if_neg (b64char_ne_pad (c % 64) (by omega))]
    rw [b64val_b64char (a / 4) (by omega), b64val_b64char (a % 4 * 16 + b / 16) (by omega),
      b64val_b64char (b % 16 * 4 + c / 64) (by omega), b64val_b64char (c % 64) (by omega)]
    have hrest := ih (fun x hx => h x (by simp [hx]))
    rw [hrest]
    simp only [List.cons.injEq, and_true]
    exact ⟨by omega, by omega, by omega⟩

theorem base64_roundtrip_at (bytes : List Nat) (h : ∀ b ∈ bytes, b < 256) :
    base64ToUint8Array (uint8ArrayToBase64 bytes) = bytes := by
  unfold base64ToUint8Array uint8ArrayToBase64
  have : (String.mk (btoa bytes)).toList = btoa bytes := rfl
  rw [this, atob_btoa bytes h]

/-! ## Bloom filter (src/bloom.ts)

Items are strings in the source; the hash only reads `charCodeAt`, so an item
is modelled by its list of UTF-16 code units.  JavaScript bit operations act
on 32-bit values: `^` agrees with `Nat.xor` on the unsigned representatives,
`Math.imul` is multiplication mod 2 ^ 32, and the final `>>> 0` is the
identity on them. -/

/-- bloom.ts `BloomFilterData` (`bits` is the base64-encoded bit array). -/
structure BloomFilterData where
  bits : String
  size : Nat
  numHashes : Nat
  count : Nat
deriving DecidableEq

/-- bloom.ts `fnv1a`. -/
def fnv1a (str : List Nat) (seed : Nat) : Nat :=
  str.foldl (fun hash c => Nat.xor hash c * 16777619 % 2 ^ 32) (Nat.xor 2166136261 seed)

/-- bloom.ts `getHashValues`; `Math.abs` is omitted because the operand
`(h1 + i * h2) % size` is already a nonnegative remainder. -/
def getHashValues (item : List Nat) (numHashes size : Nat) : List Nat :=
  let h1 := fnv1a item 0
  let h2 := fnv1a item h1
  (List.range numHashes).map fun i => (h1 + i * h2) % size

/-- bloom.ts `createBloomFilter` (`Math.ceil` is the identity on the Nat
product; `Math.ceil (size / 8)` is `(size + 7) / 8`). -/
def createBloomFilter (expectedElements : Nat) (bitsPerElement : Nat := 10)
    (numHashes : Nat := 7) : BloomFilterData :=
  let size := max 64 (expectedElements * bitsPerElement)
  let byteSize := (size + 7) / 8
  { bits := uint8ArrayToBase64 (List.replicate byteSize 0)
    size := size
    numHashes := numHashes
    count := 0 }

/-- The `for (const hash of hashes) bytes[byteIndex] |= 1 << bitIndex` loop of
`bloomFilterAdd`.  `List.set` ignores out-of-range indices exactly as a
`Uint8Array` store does, and `getD _ 0` matches the out-of-range read. -/
def setBloomBits (bytes : List Nat) (hashes : List Nat) : List Nat :=
  hashes.foldl (fun bs hash => bs.set (hash / 8) (bs.getD (hash / 8) 0 ||| 1 <<< (hash % 8)))
    bytes

/-- bloom.ts `bloomFilterAdd` (the source mutates `filter`; we return the
updated record). -/
def bloomFilterAdd (filter : BloomFilterData) (item : List Nat) : BloomFilterData :=
  let bytes := base64ToUint8Array filter.bits
  let hashes := getHashValues item filter.numHashes filter.size
  { filter with
    bits := uint8ArrayToBase64 (setBloomBits bytes hashes)
    count := filter.count + 1 }

/-- bloom.ts `bloomFilterMightContain`. -/
def bloomFilterMightContain (filter : BloomFilterData) (item : List Nat) : Bool :=
  let bytes := base64ToUint8Array filter.bits
  let hashes := getHashValues item filter.numHashes filter.size
  hashes.all fun hash => bytes.getD (hash / 8) 0 &&& 1 <<< (hash % 8) != 0

/-- A finite sequence of `bloomFilterAdd` calls. -/
def bloomFilterAddAll (filter : BloomFilterData) (items : List (List Nat)) : BloomFilterData :=
  items.foldl bloomFilterAdd filter

/-- Decoded bit array of a filter. -/
def filterBytes (filter : BloomFilterData) : List Nat := base64ToUint8Array filter.bits

/-- Well-formedness maintained by `createBloomFilter` and `bloomFilterAdd`:
the stored string is the canonical encoding of its decoded bytes, the byte
array has the size fixed at creation, and the filter is nonempty. -/
def WFFilter (filter : BloomFilterData) : Prop :=
  filter.bits = uint8ArrayToBase64 (filterBytes filter) ∧
    (filterBytes filter).length = (filter.size + 7) / 8 ∧ 0 < filter.size

theorem getD_lt_256 (l : List Nat) (i : Nat) (h : ∀ b ∈ l, b < 256) : l.getD i 0 < 256 := by
  rw [List.getD_eq_getElem?_getD]
  cases hx : l[i]? with
  | none => simp
  | some v =>
    simp only [Option.getD_some]
    exact h v (List.getElem?_mem hx)

theorem mem_setBloomBits_lt (hashes : List Nat) (bytes : List Nat)
    (h : ∀ b ∈ bytes, b < 256) : ∀ b ∈ setBloomBits bytes hashes, b < 256 := by
  induction hashes generalizing bytes with
  | nil => exact h
  | cons x xs ih =>
    intro b hb
    refine ih _ ?_ b hb
    intro v hv
    rcases List.mem_or_eq_of_mem_set hv with hmem | heq
    · exact h v hmem
    · subst heq
      have h1 : bytes.getD (x / 8) 0 < 256 := getD_lt_256 _ _ h
      have h2 : 1 <<< (x % 8) < 256 := by
        rw [Nat.one_shiftLeft]
        calc 2 ^ (x % 8) ≤ 2 ^ 7 := Nat.pow_le_pow_right (by norm_num) (by omega)
        _ < 256 := by norm_num
      exact Nat.or_lt_two_pow (n := 8) h1 h2

theorem length_setBloomBits (hashes : List Nat) (bytes : List Nat) :
    (setBloomBits bytes hashes).length = bytes.length := by
  induction hashes generalizing bytes with
  | nil => rfl
  | cons x xs ih =>
    show (setBloomBits (bytes.set _ _) xs).length = _
    rw [ih, List.length_set]

theorem testBit_getD_set_mono (bs : List Nat) (m j k v : Nat)
    (h : (bs.getD j 0).testBit k = true) :
    (((bs.set m (bs.getD m 0 ||| v)).getD j 0)).testBit k = true := by
  rw [List.getD_eq_getElem?_getD, List.getElem?_set]
  by_cases hmj : m = j
  · subst hmj
    by_cases hm : m < bs.length
    · rw [if_pos rfl, if_pos hm]
      simp only [Option.getD_some, Nat.testBit_lor]
      rw [List.getD_eq_getElem?_getD] at h
      rcases hx : bs[m]? with _ | v0
      · rw [hx] at h
        simp at h
      · rw [hx] at h
        simp only [Option.getD_some] at h
        have hbd : bs.getD m 0 = v0 := by
          rw [List.getD_eq_getElem?_getD, hx]
          rfl
        rw [hbd, h, Bool.true_or]
    · have hx : bs[m]? = none := by
        rw [List.getElem?_eq_none_iff]
        omega
      rw [List.getD_eq_getElem?_getD, hx] at h
      simp at h
  · simp only [if_neg hmj]
    rw [List.getD_eq_getElem?_getD] at h
    exact h

theorem testBit_setBloomBits_mono (hashes bytes : List Nat) (j k : Nat)
    (h : (bytes.getD j 0).testBit k = true) :
    ((setBloomBits bytes hashes).getD j 0).testBit k = true := by
  induction hashes generalizing bytes with
  | nil => exact h
  | cons x xs ih => exact ih _ (testBit_getD_set_mono bytes (x / 8) j k _ h)

theorem testBit_setBloomBits_self (hashes bytes : List Nat) (hash : Nat)
    (hmem : hash ∈ hashes) (hlt : hash / 8 < bytes.length) :
    ((setBloomBits bytes hashes).getD (hash / 8) 0).testBit (hash % 8) = true := by
  induction hashes generalizing bytes with
  | nil => simp at hmem
  | cons x xs ih =>
    rcases List.mem_cons.1 hmem with heq | hmem2
    · subst heq
      refine testBit_setBloomBits_mono xs _ _ _ ?_
      rw [List.getD_eq_getElem?_getD, List.getElem?_set, if_pos rfl, if_pos hlt]
      simp only [Option.getD_some, Nat.testBit_lor, Nat.one_shiftLeft,
        Nat.testBit_two_pow_self, Bool.or_true]
    · exact ih _ hmem2 (by rw [List.length_set]; exact hlt)

theorem and_shift_ne (x k : Nat) : (x &&& 1 <<< k != 0) = x.testBit k := by
  rw [Nat.one_shiftLeft, Nat.and_two_pow]
  cases h : x.testBit k <;> simp [h]

theorem mem_getHashValues_lt (item : List Nat) (numHashes size hash : Nat) (hpos : 0 < size)
    (h : hash ∈ getHashValues item numHashes size) : hash < size := by
  unfold getHashValues at h
  rcases List.mem_map.1 h with ⟨i, _, hi⟩
  rw [← hi]
  exact Nat.mod_lt _ hpos

theorem filterBytes_lt_256 (filter : BloomFilterData) : ∀ b ∈ filterBytes filter, b < 256 :=
  atob_lt_256 _

theorem filterBytes_add (filter : BloomFilterData) (item : List Nat) :
    filterBytes (bloomFilterAdd filter item) =
      setBloomBits (filterBytes filter) (getHashValues item filter.numHashes filter.size) := by
  show base64ToUint8Array (uint8ArrayToBase64 _) = _
  exact base64_roundtrip_at _ (mem_setBloomBits_lt _ _ (filterBytes_lt_256 filter))

theorem wf_createBloomFilter (expectedElements bitsPerElement numHashes : Nat) :
    WFFilter (createBloomFilter expectedElements bitsPerElement numHashes) := by
  have hbytes :
      filterBytes (createBloomFilter expectedElements bitsPerElement numHashes) =
        List.replicate ((max 64 (expectedElements * bitsPerElement) + 7) / 8) 0 := by
    show base64ToUint8Array (uint8ArrayToBase64 _) = _
    exact base64_roundtrip_at _ (by intro b hb; rw [List.eq_of_mem_replicate hb]; norm_num)
  refine ⟨?_, ?_, ?_⟩
  · rw [hbytes]
    rfl
  · rw [hbytes, List.length_replicate]
    rfl
  · show 0 < max 64 (expectedElements * bitsPerElement)
    omega

theorem wf_bloomFilterAdd (filter : BloomFilterData) (item : List Nat) (hwf : WFFilter filter) :
    WFFilter (bloomFilterAdd filter item) := by
  obtain ⟨_, hlen, hpos⟩ := hwf
  refine ⟨?_, ?_, hpos⟩
  · show uint8ArrayToBase64 _ = uint8ArrayToBase64 _
    rw [filterBytes_add]
    rfl
  · rw [filterBytes_add, length_setBloomBits]
    exact hlen

theorem mightContain_bloomFilterAdd_self (filter : BloomFilterData) (item : List Nat)
    (hwf : WFFilter filter) : bloomFilterMightContain (bloomFilterAdd filter item) item = true := by
  obtain ⟨_, hlen, hpos⟩ := hwf
  unfold bloomFilterMightContain
  rw [List.all_eq_true]
  intro hash hmem
  show (filterBytes (bloomFilterAdd filter item)).getD (hash / 8) 0 &&& 1 <<< (hash % 8) != 0
  have hsz : (bloomFilterAdd filter item).size = filter.size := rfl
  have hnh : (bloomFilterAdd filter item).numHashes = filter.numHashes := rfl
  rw [hsz, hnh] at hmem
  rw [filterBytes_add, and_shift_ne]
  refine testBit_setBloomBits_self _ _ _ hmem ?_
  have hhash : hash < filter.size := mem_getHashValues_lt _ _ _ _ hpos hmem
  rw [hlen]
  omega

theorem mightContain_bloomFilterAdd_mono (filter : BloomFilterData) (item other : List Nat)
    (h : bloomFilterMightContain filter item = true) :
    bloomFilterMightContain (bloomFilterAdd filter other) item = true := by
  unfold bloomFilterMightContain at h ⊢
  rw [List.all_eq_true] at h ⊢
  intro hash hmem
  have hsz : (bloomFilterAdd filter other).size = filter.size := rfl
  have hnh : (bloomFilterAdd filter other).numHashes = filter.numHashes := rfl
  rw [hsz, hnh] at hmem
  have hold := h hash hmem
  show (filterBytes (bloomFilterAdd filter other)).getD (hash / 8) 0 &&& 1 <<< (hash % 8) != 0
  rw [filterBytes_add, and_shift_ne]
  rw [and_shift_ne] at hold
  exact testBit_setBloomBits_mono _ _ _ _ hold

theorem wf_bloomFilterAddAll (filter : BloomFilterData) (items : List (List Nat))
    (hwf : WFFilter filter) : WFFilter (bloomFilterAddAll filter items) := by
  induction items generalizing filter with
  | nil => exact hwf
  | cons x xs ih => exact ih _ (wf_bloomFilterAdd _ _ hwf)

theorem mightContain_bloomFilterAddAll_mono (filter : BloomFilterData)
    (items : List (List Nat)) (item : List Nat)
    (h : bloomFilterMightContain filter item = true) :
    bloomFilterMightContain (bloomFilterAddAll filter items) item = true := by
  induction items generalizing filter with
  | nil => exact h
  | cons x xs ih => exact ih _ (mightContain_bloomFilterAdd_mono _ _ _ h)

theorem mightContain_of_wf_mem (filter : BloomFilterData) (items : List (List Nat))
    (item : List Nat) (hwf : WFFilter filter) (hmem : item ∈ items) :
    bloomFilterMightContain (bloomFilterAddAll filter items) item = true := by
  induction items generalizing filter with
  | nil => simp at hmem
  | cons x xs ih =>
    rcases List.mem_cons.1 hmem with heq | hmem2
    · subst heq
      exact mightContain_bloomFilterAddAll_mono (bloomFilterAdd filter item) xs item
        (mightContain_bloomFilterAdd_self filter item hwf)
    · exact ih _ (wf_bloomFilterAdd _ _ hwf) hmem2

/-- C1: for every bloom filter produced by `createBloomFilter` and every finite
sequence of `bloomFilterAdd` calls on it, if an item was added then
`bloomFilterMightContain` returns true afterward, regardless of which other
items were added before or after it (no false negatives over any insertion
sequence). -/
theorem bloom_no_false_negatives (expectedElements bitsPerElement numHashes : Nat)
    (items : List (List Nat)) (item : List Nat) (hmem : item ∈ items) :
    bloomFilterMightContain
      (bloomFilterAddAll (createBloomFilter expectedElements bitsPerElement numHashes) items)
      item = true :=
  mightContain_of_wf_mem _ _ _ (wf_createBloomFilter _ _ _) hmem

/-- Witness for C1 at a concrete filter and insertion sequence. -/
theorem bloom_no_false_negatives_witness :
    [104, 105] ∈ [[97], [104, 105], [120]] ∧
      bloomFilterMightContain
        (bloomFilterAddAll (createBloomFilter 3 10 7) [[97], [104, 105], [120]])
        [104, 105] = true :=
  ⟨by decide, bloom_no_false_negatives 3 10 7 [[97], [104, 105], [120]] [104, 105] (by decide)⟩

/-- C2: serialization of the bit array round-trips exactly: for every byte
array (entries below 256, as for a `Uint8Array`),
`base64ToUint8Array (uint8ArrayToBase64 bytes)` equals `bytes`
element-for-element and in length. -/
theorem base64_roundtrip (bytes : List Nat) (h : ∀ b ∈ bytes, b < 256) :
    base64ToUint8Array (uint8ArrayToBase64 bytes) = bytes :=
  base64_roundtrip_at bytes h

/-- Witness for C2 at a concrete byte array. -/
theorem base64_roundtrip_witness :
    (∀ b ∈ [0, 255, 7, 128, 63], b < 256) ∧
      base64ToUint8Array (uint8ArrayToBase64 [0, 255, 7, 128, 63]) = [0, 255, 7, 128, 63] :=
  ⟨by decide, base64_roundtrip [0, 255, 7, 128, 63] (by decide)⟩

/-! ## Data model (src/types.ts) and storage helpers (src/storage.ts, exact profile)

JavaScript objects with unique string keys (`Record<string, UserBlockCache>`)
are modelled as association lists; `obj[k]` is `List.lookup`.  Optional
fields are `Option String`, and the JavaScript `x || y` fallback treats both
`undefined` and the empty string as falsy. -/

/-- types.ts `FollowedUser`. -/
structure FollowedUser where
  did : String
  handle : String
  displayName : Option String
  avatar : Option String
deriving DecidableEq

/-- types.ts `UserBlockCache`. -/
structure UserBlockCache where
  did : String
  handle : String
  displayName : Option String
  avatar : Option String
  blocks : List String
  lastSynced : Nat
deriving DecidableEq

/-- types.ts `BlockCacheData`. -/
structure BlockCacheData where
  followedUsers : List FollowedUser
  userBlockCaches : List (String × UserBlockCache)
  lastFullSync : Nat
  currentUserDid : String
deriving DecidableEq

/-- types.ts `SyncStatus`. -/
structure SyncStatus where
  totalFollows : Nat
  syncedFollows : Nat
  lastSync : Nat
  isRunning : Bool
  lastUpdated : Nat
  errors : List String
deriving DecidableEq

/-- types.ts `BlockingInfo`. -/
structure BlockingInfo where
  blockedBy : List FollowedUser
  blocking : List FollowedUser
deriving DecidableEq

/-- types.ts `BskySession` (only `did` is read by the sync engine). -/
structure BskySession where
  accessJwt : String
  did : String
  handle : String
  pdsUrl : String
deriving DecidableEq

/-- JavaScript `a || b` where `a` is an optional string: `undefined` and `""`
are falsy. -/
def jsOrOpt (a b : Option String) : Option String :=
  match a with
  | none => b
  | some s => if s = "" then b else some s

/-- JavaScript `a || b` on strings: the empty string is falsy. -/
def jsOrStr (a b : String) : String := if a = "" then b else a

/-- storage.ts `createEmptyCache`. -/
def createEmptyCache (currentUserDid : String) : BlockCacheData :=
  { followedUsers := []
    userBlockCaches := []
    lastFullSync := 0
    currentUserDid := currentUserDid }

/-- storage.ts `getBlockers`; the optional argument and the storage read are
merged into one `Option BlockCacheData` parameter (the stored cache, `none`
when nothing is persisted).  `new Set(list).has x` and `list.includes x` both
test list membership, so both arms of the size-threshold conditional use
`List.contains`. -/
def getBlockers (profileDid : String) (cache : Option BlockCacheData) : List FollowedUser :=
  match cache with
  | none => []
  | some blockCache =>
    blockCache.followedUsers.foldl
      (fun blockers user =>
        match blockCache.userBlockCaches.lookup user.did with
        | none => blockers
        | some userCache =>
          if userCache.blocks.length = 0 then blockers
          else
            let hasBlock :=
              if userCache.blocks.length > 20 then userCache.blocks.contains profileDid
              else userCache.blocks.contains profileDid
            if hasBlock then
              blockers ++ [{ did := user.did
                             handle := jsOrStr userCache.handle user.handle
                             displayName := jsOrOpt userCache.displayName user.displayName
                             avatar := jsOrOpt userCache.avatar user.avatar }]
            else blockers)
      []

/-- Reading `new Map(users.map(u => [u.did, u]))`: with duplicate keys the
last insertion wins. -/
def followedByDidGet (users : List FollowedUser) (did : String) : Option FollowedUser :=
  users.reverse.find? fun u => u.did == did

/-- storage.ts `lookupBlockingInfo` (exact profile); `stored` is the
persisted cache, `none` when nothing is persisted yet. -/
def lookupBlockingInfo (profileDid : String) (profileBlocks : List String)
    (stored : Option BlockCacheData) : BlockingInfo :=
  match stored with
  | none => { blockedBy := [], blocking := [] }
  | some cache =>
    let blockedBy := getBlockers profileDid (some cache)
    let blocking := profileBlocks.foldl
      (fun blocking blockedDid =>
        match followedByDidGet cache.followedUsers blockedDid with
        | some user => blocking ++ [user]
        | none => blocking)
      []
    { blockedBy := blockedBy, blocking := blocking }

/-- storage.ts default returned by `getSyncStatus` when nothing is stored. -/
def defaultSyncStatus : SyncStatus :=
  { totalFollows := 0
    syncedFollows := 0
    lastSync := 0
    isRunning := false
    lastUpdated := 0
    errors := [] }

/-- storage.ts `getSyncStatus` as a function of the stored record. -/
def getSyncStatusFrom (stored : Option SyncStatus) : SyncStatus :=
  match stored with
  | none => defaultSyncStatus
  | some s => s

/-- Does the cached block entry of `did` contain `profileDid`? -/
def blocksHas (cache : BlockCacheData) (did profileDid : String) : Bool :=
  match cache.userBlockCaches.lookup did with
  | none => false
  | some userCache => userCache.blocks.contains profileDid

theorem getBlockers_dids_go (profileDid : String) (cache : BlockCacheData)
    (users : List FollowedUser) (acc : List FollowedUser) :
    (users.foldl
      (fun blockers user =>
        match cache.userBlockCaches.lookup user.did with
        | none => blockers
        | some userCache =>
          if userCache.blocks.length = 0 then blockers
          else
            let hasBlock :=
              if userCache.blocks.length > 20 then userCache.blocks.contains profileDid
              else userCache.blocks.contains profileDid
            if hasBlock then
              blockers ++ [{ did := user.did
                             handle := jsOrStr userCache.handle user.handle
                             displayName := jsOrOpt userCache.displayName user.displayName
                             avatar := jsOrOpt userCache.avatar user.avatar }]
            else blockers)
      acc).map (fun u => u.did) =
      acc.map (fun u => u.did) ++
        ((users.filter fun u => blocksHas cache u.did profileDid).map fun u => u.did) := by
  induction users generalizing acc with
  | nil => simp
  | cons u us ih =>
    simp only [List.foldl_cons, List.filter_cons]
    rcases hl : cache.userBlockCaches.lookup u.did with _ | uc
    · have hb : blocksHas cache u.did profileDid = false := by
        unfold blocksHas
        rw [hl]
      simp only [hl, hb, Bool.false_eq_true, if_false]
      exact ih acc
    · have hb : blocksHas cache u.did profileDid = uc.blocks.contains profileDid := by
        unfold blocksHas
        rw [hl]
      simp only [hl]
      by_cases hz : uc.blocks.length = 0
      · have hcz : uc.blocks.contains profileDid = false := by
          rcases hx : uc.blocks with _ | ⟨y, ys⟩
          · rfl
          · rw [hx] at hz
            simp at hz

        rw [if_pos hz, hb, hcz]
        simp only [Bool.false_eq_true, if_false]
        exact ih acc
      · rw [if_neg hz, ite_self, hb]
        rcases hc : uc.blocks.contains profileDid with _ | _
        · simp only [Bool.false_eq_true, if_false]
          exact ih acc
        · simp only [if_pos rfl]
          rw [ih]
          simp

theorem lookup_blocking_go (users : List FollowedUser) (profileBlocks : List String)
    (acc : List FollowedUser) :
    (profileBlocks.foldl
      (fun blocking blockedDid =>
        match followedByDidGet users blockedDid with
        | some user => blocking ++ [user]
        | none => blocking)
      acc).map (fun u => u.did) =
      acc.map (fun u => u.did) ++
        profileBlocks.filter (fun d => users.any fun u => u.did == d) := by
  induction profileBlocks generalizing acc with
  | nil => simp
  | cons d ds ih =>
    simp only [List.foldl_cons, List.filter_cons]
    rcases hf : followedByDidGet users d with _ | u
    · have hany : (users.any fun u => u.did == d) = false := by
        unfold followedByDidGet at hf
        rw [List.find?_eq_none] at hf
        rw [List.any_eq_false]
        intro u hu
        exact hf u (by rw [List.mem_reverse]; exact hu)
      simp only [hf, hany, Bool.false_eq_true, if_false]
      exact ih acc
    · have hud : u.did = d := by
        have := List.find?_some hf
        simpa using this
      have hany : (users.any fun v => v.did == d) = true := by
        rw [List.any_eq_true]
        refine ⟨u, ?_, by simp [hud]⟩
        have := List.mem_of_find?_eq_some hf
        rw [List.mem_reverse] at this
        exact this
      simp only [hf, hany, if_pos rfl]
      rw [ih]
      simp [hud]

/-- C5: for every persisted cache, `lookupBlockingInfo` returns `blockedBy` =
exactly the followed users whose cached block entry contains the profile id
(in follow-list order), and `blocking` = exactly the followed users whose id
appears in `profileBlocks`; in particular the two concrete scenarios of the
specification hold. -/
theorem lookupBlockingInfo_exact (profileDid : String) (profileBlocks : List String)
    (cache : BlockCacheData) :
    ((lookupBlockingInfo profileDid profileBlocks (some cache)).blockedBy.map fun u => u.did) =
        ((cache.followedUsers.filter fun u => blocksHas cache u.did profileDid).map
          fun u => u.did) ∧
      ((lookupBlockingInfo profileDid profileBlocks (some cache)).blocking.map fun u => u.did) =
        (profileBlocks.filter fun d => cache.followedUsers.any fun u => u.did == d) ∧
      lookupBlockingInfo "p1" []
          (some { followedUsers := [{ did := "A", handle := "a.test", displayName := none,
                                      avatar := none },
                                    { did := "B", handle := "b.test", displayName := none,
                                      avatar := none }]
                  userBlockCaches :=
                    [("A", { did := "A", handle := "a.test", displayName := none,
                             avatar := none, blocks := ["p1"], lastSynced := 1 }),
                     ("B", { did := "B", handle := "b.test", displayName := none,
                             avatar := none, blocks := [], lastSynced := 1 })]
                  lastFullSync := 0
                  currentUserDid := "me" }) =
        { blockedBy := [{ did := "A", handle := "a.test", displayName := none, avatar := none }]
          blocking := [] } ∧
      lookupBlockingInfo "target" ["C"]
          (some { followedUsers := [{ did := "C", handle := "c.test", displayName := none,
                                      avatar := none }]
                  userBlockCaches := []
                  lastFullSync := 0
                  currentUserDid := "me" }) =
        { blockedBy := []
          blocking := [{ did := "C", handle := "c.test", displayName := none, avatar := none }] } := by
  refine ⟨?_, ?_, by decide, by decide⟩
  · show ((getBlockers profileDid (some cache)).map fun u => u.did) = _
    unfold getBlockers
    rw [getBlockers_dids_go]
    simp
  · show ((profileBlocks.foldl
        (fun blocking blockedDid =>
          match followedByDidGet cache.followedUsers blockedDid with
          | some user => blocking ++ [user]
          | none => blocking)
        []).map fun u => u.did) = _
    rw [lookup_blocking_go]
    simp

/-- C6: when no cache has been persisted, `lookupBlockingInfo` returns empty
`blockedBy` and `blocking` lists for every profile id and block list, without
raising an error. -/
theorem lookupBlockingInfo_empty_cache (profileDid : String) (profileBlocks : List String) :
    lookupBlockingInfo profileDid profileBlocks none = { blockedBy := [], blocking := [] } :=
  rfl

/-! ## Serialized size (background.ts `estimateObjectSize`)

`estimateObjectSize(obj)` is `new Blob([JSON.stringify(obj)]).size`: the UTF-8
byte length of the JSON text.  The model computes that length compositionally
for the two object shapes the function is applied to (`BlockCacheData` and
`UserBlockCache`): `JSON.stringify` prints fields in property-creation order,
omits `undefined`-valued properties, escapes `"` and `\` and control
characters in strings, and the Blob encodes everything else as UTF-8. -/

/-- UTF-8 byte length contributed by one character inside a JSON string
literal: `"` and `\` escape to two bytes, the named control escapes to two,
other control characters to six (`\u00XX`), anything else to its UTF-8 size. -/
def jsonCharSize (c : Char) : Nat :=
  if c = '"' ∨ c = '\\' then 2
  else if c.toNat < 32 then
    if c.toNat = 8 ∨ c.toNat = 9 ∨ c.toNat = 10 ∨ c.toNat = 12 ∨ c.toNat = 13 then 2 else 6
  else c.utf8Size

/-- Byte length of a JSON string literal (two quotes plus escaped content). -/
def jsonStringSize (s : String) : Nat := 2 + (s.data.map jsonCharSize).sum

/-- Byte length of a JSON natural-number literal. -/
def jsonNatSize (n : Nat) : Nat := (Nat.toDigits 10 n).length

/-- Byte length of a JSON array given the byte lengths of its elements. -/
def jsonArraySize (sizes : List Nat) : Nat := 2 + sizes.sum + (sizes.length - 1)

/-- Byte length of a JSON object given the byte lengths of its fields. -/
def jsonObjSize (fieldSizes : List Nat) : Nat := 2 + fieldSizes.sum + (fieldSizes.length - 1)

/-- Byte length of one `"key":value` field. -/
def jsonFieldSize (key : String) (valueSize : Nat) : Nat := jsonStringSize key + 1 + valueSize

/-- Byte length of `JSON.stringify` of a `FollowedUser` (optional fields are
omitted when `undefined`). -/
def jsonSizeFollowedUser (u : FollowedUser) : Nat :=
  jsonObjSize
    ([jsonFieldSize "did" (jsonStringSize u.did), jsonFieldSize "handle" (jsonStringSize u.handle)] ++
      (match u.displayName with
        | none => []
        | some s => [jsonFieldSize "displayName" (jsonStringSize s)]) ++
      (match u.avatar with
        | none => []
        | some s => [jsonFieldSize "avatar" (jsonStringSize s)]))

/-- Byte length of `JSON.stringify` of a `UserBlockCache` entry. -/
def jsonSizeUBC (e : UserBlockCache) : Nat :=
  jsonObjSize
    ([jsonFieldSize "did" (jsonStringSize e.did), jsonFieldSize "handle" (jsonStringSize e.handle)] ++
      (match e.displayName with
        | none => []
        | some s => [jsonFieldSize "displayName" (jsonStringSize s)]) ++
      (match e.avatar with
        | none => []
        | some s => [jsonFieldSize "avatar" (jsonStringSize s)]) ++
      [jsonFieldSize "blocks" (jsonArraySize (e.blocks.map jsonStringSize)),
        jsonFieldSize "lastSynced" (jsonNatSize e.lastSynced)])

/-- background.ts `estimateObjectSize` applied to the whole cache. -/
def estimateObjectSize (cache : BlockCacheData) : Nat :=
  jsonObjSize
    [jsonFieldSize "followedUsers" (jsonArraySize (cache.followedUsers.map jsonSizeFollowedUser)),
      jsonFieldSize "userBlockCaches"
        (jsonObjSize (cache.userBlockCaches.map fun e => jsonFieldSize e.1 (jsonSizeUBC e.2))),
      jsonFieldSize "lastFullSync" (jsonNatSize cache.lastFullSync),
      jsonFieldSize "currentUserDid" (jsonStringSize cache.currentUserDid)]

/-! ## Sync engine (background.ts) -/

def STALE_LOCK_TIMEOUT_MS : Nat := 5 * 60 * 1000

def MAX_CACHE_SIZE_BYTES : Nat := 8 * 1024 * 1024

def RATE_LIMIT_CONCURRENT : Nat := 5

def SAVE_INTERVAL : Nat := 10

/-- One insertion step of a stable descending sort by block count, modelling
`Array.prototype.sort((a, b) => b.blockCount - a.blockCount)` (a stable sort,
so any stable algorithm produces the same list). -/
def insertByCountDesc (x : String × Nat) : List (String × Nat) → List (String × Nat)
  | [] => [x]
  | y :: ys => if x.2 ≥ y.2 then x :: y :: ys else y :: insertByCountDesc x ys

/-- Stable sort of `(did, blockCount)` pairs by descending count. -/
def sortByCountDesc : List (String × Nat) → List (String × Nat)
  | [] => []
  | x :: xs => insertByCountDesc x (sortByCountDesc xs)

/-- `estimateObjectSize(cache.userBlockCaches[did])` inside the prune loop;
when the key is absent (impossible with unique keys), `JSON.stringify`
produces `undefined`, which the Blob stringifies to the 9 bytes of
`"undefined"`. -/
def removedEntrySize (m : List (String × UserBlockCache)) (did : String) : Nat :=
  match m.lookup did with
  | some e => jsonSizeUBC e
  | none => 9

/-- The removal loop of background.ts `pruneCache`: walk the count-sorted
entries, stop as soon as the running size estimate is within the limit,
otherwise delete the entry and subtract its serialized size. -/
def pruneGo : List (String × Nat) → Int → List (String × UserBlockCache) →
    List (String × UserBlockCache)
  | [], _, m => m
  | (did, _) :: rest, currentSize, m =>
    if currentSize ≤ (MAX_CACHE_SIZE_BYTES : Int) then m
    else pruneGo rest (currentSize - removedEntrySize m did) (m.filter fun e => e.1 != did)

/-- background.ts `pruneCache` (the source mutates `cache`; we return the
pruned record). -/
def pruneCache (cache : BlockCacheData) : BlockCacheData :=
  let usersWithBlockCounts :=
    sortByCountDesc (cache.userBlockCaches.map fun e => (e.1, e.2.blocks.length))
  { cache with
    userBlockCaches :=
      pruneGo usersWithBlockCounts (estimateObjectSize cache) cache.userBlockCaches }

/-- `errorMsg.includes('QUOTA_BYTES') || errorMsg.includes('quota')`. -/
def listIsInfix (pat : List Char) : List Char → Bool
  | [] => pat.isEmpty
  | c :: rest => pat.isPrefixOf (c :: rest) || listIsInfix pat rest

def isQuotaMsg (msg : String) : Bool :=
  listIsInfix "QUOTA_BYTES".toList msg.toList || listIsInfix "quota".toList msg.toList

/-- The device store read and written by the engine. -/
structure Store where
  syncStatus : Option SyncStatus
  blockCache : Option BlockCacheData
  auth : Option BskySession
deriving DecidableEq

/-- Environment of one sync pass: the clock and the mocked remote calls.
`userBlocks` returns `Except.error` when `getUserBlocks` throws, and
`Except.ok none` for a non-array response (normalized to `[]` by the engine).
`saveFails cache` is the error message `chrome.storage.local.set` would throw
for this payload (`none` = the write succeeds). -/
structure SyncEnv where
  now : Nat
  allFollows : Except String (List FollowedUser)
  userBlocks : String → Except String (Option (List String))
  saveFails : BlockCacheData → Option String

/-- storage.ts `getSyncStatus` on the store. -/
def getSyncStatusOf (st : Store) : SyncStatus := getSyncStatusFrom st.syncStatus

/-- A `Partial<SyncStatus>` argument of `updateSyncStatus` (`lastUpdated` is
always overwritten by the helper itself). -/
structure SyncStatusPatch where
  totalFollows : Option Nat := none
  syncedFollows : Option Nat := none
  lastSync : Option Nat := none
  isRunning : Option Bool := none
  errors : Option (List String) := none

/-- `{ ...current, ...status, lastUpdated: Date.now() }`. -/
def applyPatch (cur : SyncStatus) (p : SyncStatusPatch) (now : Nat) : SyncStatus :=
  { totalFollows := p.totalFollows.getD cur.totalFollows
    syncedFollows := p.syncedFollows.getD cur.syncedFollows
    lastSync := p.lastSync.getD cur.lastSync
    isRunning := p.isRunning.getD cur.isRunning
    lastUpdated := now
    errors := p.errors.getD cur.errors }

/-- storage.ts `updateSyncStatus`. -/
def updateSyncStatus (now : Nat) (p : SyncStatusPatch) (st : Store) : Store :=
  { st with syncStatus := some (applyPatch (getSyncStatusOf st) p now) }

/-- background.ts `safeSaveBlockCache`.  Returns the saved flag, the store
after any successful write, the cache object as left by the call (pruned in
place on a quota error), and — as pure instrumentation — the list of payloads
passed to `saveBlockCache`, in order. -/
def safeSaveBlockCache (env : SyncEnv) (st : Store) (cache : BlockCacheData) :
    Except String (Bool × Store × BlockCacheData × List BlockCacheData) :=
  match env.saveFails cache with
  | none => .ok (true, { st with blockCache := some cache }, cache, [cache])
  | some msg =>
    if isQuotaMsg msg then
      let pruned := pruneCache cache
      match env.saveFails pruned with
      | none => .ok (true, { st with blockCache := some pruned }, pruned, [cache, pruned])
      | some _ => .ok (false, st, pruned, [cache, pruned])
    else .error msg

/-- api.ts `chunk` (as given by its test double): successive slices of `size`
elements.  The recursion is bounded by a fuel equal to the input length,
which is enough for every positive `size` (each step consumes at least one
element); the JavaScript loop does not terminate at all for `size = 0`, and
the engine only ever calls it with `RATE_LIMIT_CONCURRENT = 5`. -/
def chunkGo {α : Type} : Nat → List α → Nat → List (List α)
  | 0, _, _ => []
  | _, [], _ => []
  | fuel + 1, a :: rest, size => ((a :: rest).take size) :: chunkGo fuel ((a :: rest).drop size) size

def chunkList {α : Type} (arr : List α) (size : Nat) : List (List α) :=
  chunkGo arr.length arr size

/-- `obj[k] = v` on a unique-key record: replace the existing entry in place
or append a new one. -/
def setEntry (m : List (String × UserBlockCache)) (k : String) (v : UserBlockCache) :
    List (String × UserBlockCache) :=
  if m.any (fun e => e.1 == k) then m.map fun e => if e.1 == k then (k, v) else e
  else m ++ [(k, v)]

/-- Mutable state threaded through the chunk loop of `performFullSync`. -/
structure LoopState where
  st : Store
  cache : BlockCacheData
  syncedCount : Nat
  errors : List String

inductive SyncOutcome where
  | lockBusy
  | noAuth
  | completed
  | failed (msg : String)
deriving DecidableEq

/-- Result of `performFullSync`: the final store, how the pass ended, whether
a stale lock was forcibly reset, and whether `getAllFollows` was reached. -/
structure SyncResult where
  store : Store
  outcome : SyncOutcome
  resetStale : Bool
  fetchedFollows : Bool

/-- Body of the per-user closure inside the chunk loop: fetch the block list,
store an entry only when it is nonempty, bump the progress counter and
republish the status (the `Promise.all` of a chunk is modelled by running the
independent per-user effects in user order; entry writes and error pushes
commute, only the unspecified JavaScript completion order of the error
strings differs). -/
def processUser (env : SyncEnv) (total : Nat) (s : LoopState) (user : FollowedUser) :
    LoopState :=
  match env.userBlocks user.did with
  | .error e => { s with errors := s.errors ++ ["Failed to sync " ++ user.handle ++ ": " ++ e] }
  | .ok fetched =>
    let blocks := fetched.getD []
    let cache :=
      if blocks.length > 0 then
        { s.cache with
          userBlockCaches := setEntry s.cache.userBlockCaches user.did
            { did := user.did
              handle := user.handle
              displayName := user.displayName
              avatar := user.avatar
              blocks := blocks
              lastSynced := env.now } }
      else s.cache
    let syncedCount := s.syncedCount + 1
    { st := updateSyncStatus env.now
        { syncedFollows := some syncedCount, totalFollows := some total } s.st
      cache := cache
      syncedCount := syncedCount
      errors := s.errors }

/-- The chunk loop of `performFullSync`: process a chunk, save every
`SAVE_INTERVAL` chunks and unconditionally on the last chunk (continuing with
the possibly pruned cache), propagate a rethrown non-quota save error together
with the store at that point.  The inter-chunk `sleep` has no modelled
effect. -/
def syncChunks (env : SyncEnv) (total numChunks : Nat) :
    List (List FollowedUser) → Nat → LoopState → Except (String × Store) LoopState
  | [], _, s => .ok s
  | chunkArr :: rest, chunkIndex, s =>
    let s2 := chunkArr.foldl (processUser env total) s
    if (chunkIndex + 1) % SAVE_INTERVAL = 0 ∨ chunkIndex = numChunks - 1 then
      match safeSaveBlockCache env s2.st { s2.cache with lastFullSync := env.now } with
      | .error msg => .error (msg, s2.st)
      | .ok (_, st2, cache2, _) =>
        syncChunks env total numChunks rest (chunkIndex + 1)
          { s2 with st := st2, cache := cache2 }
    else syncChunks env total numChunks rest (chunkIndex + 1) s2

/-- Fetch-and-persist phase of `performFullSync` (everything after the lock
acquisition inside the `try`): enumerate follows, run the chunk loop, publish
the final status; the `catch` clears `isRunning` and records the thrown
message. -/
def performFullSyncRun (env : SyncEnv) (st3 : Store) (cache1 : BlockCacheData)
    (resetStale : Bool) : SyncResult :=
  match env.allFollows with
  | .error msg =>
    { store := updateSyncStatus env.now { isRunning := some false, errors := some [msg] } st3
      outcome := .failed msg
      resetStale := resetStale
      fetchedFollows := true }
  | .ok follows =>
    let cache2 := { cache1 with followedUsers := follows }
    let chunks := chunkList follows RATE_LIMIT_CONCURRENT
    match syncChunks env follows.length chunks.length chunks 0
        { st := st3, cache := cache2, syncedCount := 0, errors := [] } with
    | .error me =>
      { store := updateSyncStatus env.now { isRunning := some false, errors := some [me.1] } me.2
        outcome := .failed me.1
        resetStale := resetStale
        fetchedFollows := true }
    | .ok sF =>
      { store := updateSyncStatus env.now
          { isRunning := some false, lastSync := some env.now,
            syncedFollows := some sF.syncedCount, totalFollows := some follows.length,
            errors := some sF.errors } sF.st
        outcome := .completed
        resetStale := resetStale
        fetchedFollows := true }

/-- `if (!cache || cache.currentUserDid !== auth.did) cache = createEmptyCache(auth.did)`. -/
def selectCache (stored : Option BlockCacheData) (authDid : String) : BlockCacheData :=
  match stored with
  | none => createEmptyCache authDid
  | some c => if c.currentUserDid = authDid then c else createEmptyCache authDid

/-- The proactive-prune step of `performFullSync`: when the serialized size
exceeds 90% of the quota, prune and save (a rethrown non-quota save error
carries the store to the outer catch). -/
def proactivePrune (env : SyncEnv) (st2 : Store) (cache0 : BlockCacheData) :
    Except (String × Store) (Store × BlockCacheData) :=
  if 10 * estimateObjectSize cache0 > 9 * MAX_CACHE_SIZE_BYTES then
    match safeSaveBlockCache env st2 (pruneCache cache0) with
    | .error msg => .error (msg, st2)
    | .ok (_, st3, cache1, _) => .ok (st3, cache1)
  else .ok (st2, cache0)

/-- Body of `performFullSync` after the lock check (the `try`/`catch`):
auth check, lock write, identity check, proactive prune, then the run. -/
def performFullSyncBody (env : SyncEnv) (st1 : Store) (resetStale : Bool) : SyncResult :=
  let authDid :=
    match st1.auth with
    | none => ""
    | some auth => auth.did
  if authDid = "" then
    { store := st1, outcome := .noAuth, resetStale := resetStale, fetchedFollows := false }
  else
    let st2 := updateSyncStatus env.now
      { isRunning := some true, errors := some [], syncedFollows := some 0 } st1
    match proactivePrune env st2 (selectCache st2.blockCache authDid) with
    | .error me =>
      { store := updateSyncStatus env.now { isRunning := some false, errors := some [me.1] } me.2
        outcome := .failed me.1
        resetStale := resetStale
        fetchedFollows := false }
    | .ok (st3, cache1) => performFullSyncRun env st3 cache1 resetStale

/-- background.ts `performFullSync`.  `Date.now()` is modelled by the single
environment clock `env.now` (no claim depends on the clock advancing inside
one pass).  The float comparison `initialSize > MAX_CACHE_SIZE_BYTES * 0.9`
agrees with `10 * size > 9 * MAX` on every integer size. -/
def performFullSync (env : SyncEnv) (st0 : Store) : SyncResult :=
  let syncStatus := getSyncStatusOf st0
  if syncStatus.isRunning ∧
      (env.now : Int) - (syncStatus.lastUpdated : Int) < (STALE_LOCK_TIMEOUT_MS : Int) then
    { store := st0, outcome := .lockBusy, resetStale := false, fetchedFollows := false }
  else
    performFullSyncBody env
      (if syncStatus.isRunning then updateSyncStatus env.now { isRunning := some false } st0
        else st0)
      syncStatus.isRunning

/-! ## Lock and status lemmas (C3, C9, C10) -/

theorem getSyncStatusOf_update (now : Nat) (p : SyncStatusPatch) (st : Store) :
    getSyncStatusOf (updateSyncStatus now p st) = applyPatch (getSyncStatusOf st) p now := rfl

theorem run_resetStale (env : SyncEnv) (st : Store) (cache : BlockCacheData) (r : Bool) :
    (performFullSyncRun env st cache r).resetStale = r := by
  unfold performFullSyncRun
  split
  · rfl
  · dsimp only
    split
    · rfl
    · rfl

theorem run_fetchedFollows (env : SyncEnv) (st : Store) (cache : BlockCacheData) (r : Bool) :
    (performFullSyncRun env st cache r).fetchedFollows = true := by
  unfold performFullSyncRun
  split
  · rfl
  · dsimp only
    split
    · rfl
    · rfl

theorem run_isRunning_false (env : SyncEnv) (st : Store) (cache : BlockCacheData) (r : Bool) :
    (getSyncStatusOf (performFullSyncRun env st cache r).store).isRunning = false := by
  unfold performFullSyncRun
  split
  · rfl
  · dsimp only
    split
    · rfl
    · rfl

theorem run_outcome_ne (env : SyncEnv) (st : Store) (cache : BlockCacheData) (r : Bool) :
    (performFullSyncRun env st cache r).outcome ≠ SyncOutcome.lockBusy ∧
      (performFullSyncRun env st cache r).outcome ≠ SyncOutcome.noAuth := by
  unfold performFullSyncRun
  split
  · exact ⟨by simp, by simp⟩
  · dsimp only
    split
    · exact ⟨by simp, by simp⟩
    · exact ⟨by simp, by simp⟩

theorem body_outcome_ne_lockBusy (env : SyncEnv) (st : Store) (r : Bool) :
    (performFullSyncBody env st r).outcome ≠ SyncOutcome.lockBusy := by
  unfold performFullSyncBody
  dsimp only
  split
  · simp
  · split
    · simp
    · exact (run_outcome_ne _ _ _ _).1

theorem body_resetStale (env : SyncEnv) (st : Store) (r : Bool) :
    (performFullSyncBody env st r).resetStale = r := by
  unfold performFullSyncBody
  dsimp only
  split
  · rfl
  · split
    · rfl
    · exact run_resetStale _ _ _ _

theorem body_isRunning_or (env : SyncEnv) (st : Store) (r : Bool) :
    (performFullSyncBody env st r).outcome = SyncOutcome.noAuth ∨
      (getSyncStatusOf (performFullSyncBody env st r).store).isRunning = false := by
  unfold performFullSyncBody
  dsimp only
  repeat' split
  all_goals first
    | exact Or.inl rfl
    | exact Or.inr rfl
    | exact Or.inr (run_isRunning_false _ _ _ _)

theorem body_isRunning_false (env : SyncEnv) (st : Store) (r : Bool)
    (h : (performFullSyncBody env st r).outcome ≠ SyncOutcome.noAuth) :
    (getSyncStatusOf (performFullSyncBody env st r).store).isRunning = false := by
  rcases body_isRunning_or env st r with h2 | h2
  · exact absurd h2 h
  · exact h2

theorem safeSave_ok_of_none (env : SyncEnv) (st : Store) (cache : BlockCacheData)
    (hsave : ∀ c, env.saveFails c = none) :
    safeSaveBlockCache env st cache =
      .ok (true, { st with blockCache := some cache }, cache, [cache]) := by
  unfold safeSaveBlockCache
  rw [hsave]

theorem proactivePrune_ne_error (env : SyncEnv) (st : Store) (cache : BlockCacheData)
    (hsave : ∀ c, env.saveFails c = none) (me : String × Store) :
    proactivePrune env st cache ≠ .error me := by
  unfold proactivePrune
  split
  · rw [safeSave_ok_of_none env _ _ hsave]
    simp
  · simp

theorem body_fetchedFollows (env : SyncEnv) (st : Store) (r : Bool) (a : BskySession)
    (ha : st.auth = some a) (hne : a.did ≠ "")
    (hsave : ∀ c, env.saveFails c = none) :
    (performFullSyncBody env st r).fetchedFollows = true := by
  unfold performFullSyncBody
  dsimp only
  rw [ha]
  dsimp only
  rw [if_neg hne]
  split
  · rename_i me hm
    exact absurd hm (proactivePrune_ne_error _ _ _ hsave me)
  · exact run_fetchedFollows _ _ _ _

/-- C10: when no `SyncStatus` record exists, `getSyncStatus` returns the
default `{totalFollows := 0, syncedFollows := 0, lastSync := 0,
isRunning := false, lastUpdated := 0, errors := []}`; consequently a sync
invocation on such a store is never stopped by the lock check. -/
theorem getSyncStatus_fresh_default (env : SyncEnv) (st : Store) (h : st.syncStatus = none) :
    getSyncStatusOf st =
        { totalFollows := 0, syncedFollows := 0, lastSync := 0, isRunning := false,
          lastUpdated := 0, errors := [] } ∧
      (performFullSync env st).outcome ≠ SyncOutcome.lockBusy := by
  have h1 : getSyncStatusOf st = defaultSyncStatus := by
    unfold getSyncStatusOf
    rw [h]
    rfl
  refine ⟨h1, ?_⟩
  unfold performFullSync
  rw [h1]
  simp only [defaultSyncStatus, Bool.false_eq_true, false_and, if_false]
  exact body_outcome_ne_lockBusy _ _ _

/-- Witness for C10 on a fresh store. -/
theorem getSyncStatus_fresh_default_witness :
    ({ syncStatus := none, blockCache := none, auth := none } : Store).syncStatus = none ∧
      (getSyncStatusOf { syncStatus := none, blockCache := none, auth := none } =
          { totalFollows := 0, syncedFollows := 0, lastSync := 0, isRunning := false,
            lastUpdated := 0, errors := [] } ∧
        (performFullSync
            { now := 0, allFollows := .ok [], userBlocks := fun _ => .ok (some []),
              saveFails := fun _ => none }
            { syncStatus := none, blockCache := none, auth := none }).outcome ≠
          SyncOutcome.lockBusy) :=
  ⟨rfl, getSyncStatus_fresh_default _ _ rfl⟩

/-- C3: with `running = true` and a heartbeat at least the 5-minute stale
timeout old, `performFullSync` resets the stale lock and proceeds (reaching
the follows fetch when auth is present and the storage writes succeed); with
`running = true` and a heartbeat fresher than the timeout it aborts without
doing any sync work, leaving the store untouched. -/
theorem stale_lock_recovery (env : SyncEnv) (st : Store)
    (hrun : (getSyncStatusOf st).isRunning = true) :
    ((STALE_LOCK_TIMEOUT_MS : Int) ≤ (env.now : Int) - ((getSyncStatusOf st).lastUpdated : Int) →
        (performFullSync env st).resetStale = true ∧
          (performFullSync env st).outcome ≠ SyncOutcome.lockBusy ∧
          (∀ a, st.auth = some a → a.did ≠ "" → (∀ c, env.saveFails c = none) →
            (performFullSync env st).fetchedFollows = true)) ∧
      ((env.now : Int) - ((getSyncStatusOf st).lastUpdated : Int) <
          (STALE_LOCK_TIMEOUT_MS : Int) →
        performFullSync env st =
          { store := st, outcome := .lockBusy, resetStale := false,
            fetchedFollows := false }) := by
  constructor
  · intro hstale
    have hcond : ¬((getSyncStatusOf st).isRunning = true ∧
        (env.now : Int) - ((getSyncStatusOf st).lastUpdated : Int) <
          (STALE_LOCK_TIMEOUT_MS : Int)) := by
      intro hc
      omega
    unfold performFullSync
    rw [if_neg hcond, hrun]
    simp only [if_pos rfl]
    refine ⟨by rw [body_resetStale], body_outcome_ne_lockBusy _ _ _, ?_⟩
    intro a ha hne hsave
    exact body_fetchedFollows _ _ _ a ha hne hsave
  · intro hfresh
    unfold performFullSync
    rw [if_pos ⟨hrun, hfresh⟩]

/-- Environment of the C3 witness: empty follow list, no failures, clock at
six minutes. -/
def envC3 : SyncEnv :=
  { now := 360000
    allFollows := .ok []
    userBlocks := fun _ => .ok (some [])
    saveFails := fun _ => none }

/-- Store with a stale (six-minute-old) running lock. -/
def staleStoreC3 : Store :=
  { syncStatus := some
      { totalFollows := 100
        syncedFollows := 50
        lastSync := 0
        isRunning := true
        lastUpdated := 0
        errors := [] }
    blockCache := none
    auth := some { accessJwt := "jwt", did := "did:me", handle := "me", pdsUrl := "p" } }

/-- Store with a fresh running lock (heartbeat 100 seconds old). -/
def freshStoreC3 : Store :=
  { syncStatus := some
      { totalFollows := 100
        syncedFollows := 50
        lastSync := 0
        isRunning := true
        lastUpdated := 260000
        errors := [] }
    blockCache := none
    auth := some { accessJwt := "jwt", did := "did:me", handle := "me", pdsUrl := "p" } }

/-- Witness for C3: the stale lock is reset and the pass fetches follows; the
fresh lock makes the pass abort untouched. -/
theorem stale_lock_recovery_witness :
    ((performFullSync envC3 staleStoreC3).resetStale = true ∧
        (performFullSync envC3 staleStoreC3).fetchedFollows = true) ∧
      performFullSync envC3 freshStoreC3 =
        { store := freshStoreC3, outcome := .lockBusy, resetStale := false,
          fetchedFollows := false } := by
  constructor
  · have h := (stale_lock_recovery envC3 staleStoreC3 rfl).1 (by decide)
    exact ⟨h.1, h.2.2 _ rfl (by decide) (fun c => rfl)⟩
  · exact (stale_lock_recovery envC3 freshStoreC3 rfl).2 (by decide)

/-- C9: every terminating `performFullSync` execution that acquires the lock
(neither skipped at the lock check nor at the auth check) ends with a
`SyncStatus` write setting `running = false`, on both the success and the
failure path. -/
theorem sync_always_releases_lock (env : SyncEnv) (st : Store)
    (h1 : (performFullSync env st).outcome ≠ SyncOutcome.lockBusy)
    (h2 : (performFullSync env st).outcome ≠ SyncOutcome.noAuth) :
    (getSyncStatusOf (performFullSync env st).store).isRunning = false := by
  unfold performFullSync at h1 h2 ⊢
  dsimp only at h1 h2 ⊢
  by_cases hc : (getSyncStatusOf st).isRunning = true ∧
      (env.now : Int) - ((getSyncStatusOf st).lastUpdated : Int) < (STALE_LOCK_TIMEOUT_MS : Int)
  · rw [if_pos hc] at h1
    exact absurd rfl h1
  · rw [if_neg hc] at h2 ⊢
    exact body_isRunning_false _ _ _ h2

/-- Environment of the C9 witness: one follow with one block, no failures. -/
def envC9 : SyncEnv :=
  { now := 7
    allFollows := .ok [{ did := "d1", handle := "h1", displayName := none, avatar := none }]
    userBlocks := fun _ => .ok (some ["b1"])
    saveFails := fun _ => none }

/-- Fresh authenticated store of the C9 witness. -/
def storeC9 : Store :=
  { syncStatus := none
    blockCache := none
    auth := some { accessJwt := "jwt", did := "did:me", handle := "me", pdsUrl := "p" } }

/-- Witness for C9 on a completing concrete run. -/
theorem sync_always_releases_lock_witness :
    (performFullSync envC9 storeC9).outcome ≠ SyncOutcome.lockBusy ∧
      (performFullSync envC9 storeC9).outcome ≠ SyncOutcome.noAuth ∧
      (getSyncStatusOf (performFullSync envC9 storeC9).store).isRunning = false := by
  refine ⟨by decide, by decide, ?_⟩
  exact sync_always_releases_lock _ _ (by decide) (by decide)

/-! ## Chunk-loop lemmas (C7, C8) -/

theorem chunkGo_flatten {α : Type} (fuel : Nat) (arr : List α) (size : Nat) (hsize : 0 < size)
    (hf : arr.length ≤ fuel) : (chunkGo fuel arr size).flatten = arr := by
  induction fuel generalizing arr with
  | zero =>
    have harr : arr = [] := List.eq_nil_of_length_eq_zero (by omega)
    subst harr
    rfl
  | succ fuel ih =>
    rcases arr with _ | ⟨a, rest⟩
    · rfl
    · show (((a :: rest).take size) :: chunkGo fuel ((a :: rest).drop size) size).flatten = _
      rw [List.flatten_cons, ih]
      · exact List.take_append_drop _ _
      · simp only [List.length_drop, List.length_cons]
        have : rest.length + 1 ≤ fuel + 1 := by simpa using hf
        omega

theorem chunkList_flatten {α : Type} (arr : List α) (size : Nat) (hsize : 0 < size) :
    (chunkList arr size).flatten = arr :=
  chunkGo_flatten _ _ _ hsize le_rfl

theorem chunkList_ne_nil {α : Type} (a : α) (rest : List α) (size : Nat) :
    chunkList (a :: rest) size ≠ [] := by
  show (((a :: rest).take size) :: chunkGo rest.length ((a :: rest).drop size) size) ≠ []
  simp

theorem beq_comm_false {a b : String} (h : (a == b) = false) : (b == a) = false := by
  rw [beq_eq_false_iff_ne] at h ⊢
  exact fun hb => h hb.symm

theorem lookup_of_any_false (m : List (String × UserBlockCache)) (k : String)
    (h : m.any (fun e => e.1 == k) = false) : m.lookup k = none := by
  induction m with
  | nil => rfl
  | cons e rest ih =>
    simp only [List.any_cons, Bool.or_eq_false_iff] at h
    rcases e with ⟨a, b⟩
    rw [List.lookup_cons]
    rw [beq_comm_false h.1]
    exact ih h.2

theorem lookup_map_replace_self (m : List (String × UserBlockCache)) (k : String)
    (v : UserBlockCache) (hany : m.any (fun e => e.1 == k) = true) :
    (m.map fun e => if e.1 == k then (k, v) else e).lookup k = some v := by
  induction m with
  | nil => simp at hany
  | cons e rest ih =>
    rcases e with ⟨a, b⟩
    simp only [List.any_cons, Bool.or_eq_true] at hany
    rcases he : a == k with _ | _
    · have hk : (k == a) = false := beq_comm_false he
      have hrest : (rest.any fun e => e.1 == k) = true := by
        rcases hany with h | h
        · exact absurd h (by simp [he])
        · exact h
      simp only [List.map_cons]
      simp only [he, Bool.false_eq_true, if_false, List.lookup_cons, hk]
      exact ih hrest
    · simp only [List.map_cons]
      simp only [he, if_true, List.lookup_cons, beq_self_eq_true]

theorem lookup_map_replace_ne (m : List (String × UserBlockCache)) (k d : String)
    (v : UserBlockCache) (hne : k ≠ d) :
    (m.map fun e => if e.1 == k then (k, v) else e).lookup d = m.lookup d := by
  induction m with
  | nil => rfl
  | cons e rest ih =>
    rcases e with ⟨a, b⟩
    have hdk : (d == k) = false := beq_eq_false_iff_ne.2 (fun h => hne h.symm)
    rcases he : a == k with _ | _
    · simp only [List.map_cons, he, Bool.false_eq_true, if_false, List.lookup_cons]
      rcases hda : d == a with _ | _
      · exact ih
      · rfl
    · have hak : a = k := by simpa using he
      subst hak
      simp only [List.map_cons, beq_self_eq_true, if_true, List.lookup_cons, hdk]
      exact ih

theorem lookup_append_single_ne (m : List (String × UserBlockCache)) (k d : String)
    (v : UserBlockCache) (hne : k ≠ d) :
    (m ++ [(k, v)]).lookup d = m.lookup d := by
  induction m with
  | nil =>
    show List.lookup d [(k, v)] = none
    rw [List.lookup_cons]
    rw [beq_eq_false_iff_ne.2 (fun hdk => hne hdk.symm)]
    rfl
  | cons e rest ih =>
    rcases e with ⟨a, b⟩
    rw [List.cons_append, List.lookup_cons, List.lookup_cons]
    rcases d == a with _ | _
    · exact ih
    · rfl

theorem lookup_setEntry_self (m : List (String × UserBlockCache)) (k : String)
    (v : UserBlockCache) : (setEntry m k v).lookup k = some v := by
  unfold setEntry
  rcases hany : m.any (fun e => e.1 == k) with _ | _
  · simp only [Bool.false_eq_true, if_false]
    induction m with
    | nil =>
      rw [List.nil_append]
      show List.lookup k [(k, v)] = some v
      rw [List.lookup_cons]
      simp
    | cons e rest ih =>
      simp only [List.any_cons, Bool.or_eq_false_iff] at hany
      rcases e with ⟨a, b⟩
      rw [List.cons_append, List.lookup_cons, beq_comm_false hany.1]
      exact ih hany.2
  · simp only [if_true]
    exact lookup_map_replace_self m k v hany

theorem lookup_setEntry_ne (m : List (String × UserBlockCache)) (k d : String)
    (v : UserBlockCache) (hne : k ≠ d) : (setEntry m k v).lookup d = m.lookup d := by
  unfold setEntry
  split
  · exact lookup_map_replace_ne m k d v hne
  · exact lookup_append_single_ne m k d v hne

theorem lookup_setEntry_some (m : List (String × UserBlockCache)) (k d : String)
    (v : UserBlockCache) (h : m.lookup d ≠ none) : (setEntry m k v).lookup d ≠ none := by
  by_cases hkd : k = d
  · subst hkd
    rw [lookup_setEntry_self]
    simp
  · rw [lookup_setEntry_ne m k d v hkd]
    exact h

theorem lookup_filter_none (m : List (String × UserBlockCache))
    (p : String × UserBlockCache → Bool) (d : String) (h : m.lookup d = none) :
    (m.filter p).lookup d = none := by
  rw [List.lookup_eq_none_iff] at h ⊢
  intro e he
  exact h e (List.mem_filter.1 he).1

theorem lookup_pruneGo_none (l : List (String × Nat)) (size : Int)
    (m : List (String × UserBlockCache)) (d : String) (h : m.lookup d = none) :
    (pruneGo l size m).lookup d = none := by
  induction l generalizing size m with
  | nil => exact h
  | cons x rest ih =>
    rcases x with ⟨did, cnt⟩
    show (if size ≤ (MAX_CACHE_SIZE_BYTES : Int) then m
        else pruneGo rest (size - removedEntrySize m did) (m.filter fun e => e.1 != did)).lookup
        d = none
    split
    · exact h
    · exact ih _ _ (lookup_filter_none _ _ _ h)

theorem lookup_pruneCache_none (c : BlockCacheData) (d : String)
    (h : c.userBlockCaches.lookup d = none) :
    (pruneCache c).userBlockCaches.lookup d = none := by
  unfold pruneCache
  exact lookup_pruneGo_none _ _ _ _ h

/-- The per-user error string, when the block fetch for `u` fails. -/
def fetchFailMsg (env : SyncEnv) (u : FollowedUser) : Option String :=
  match env.userBlocks u.did with
  | .error e => some ("Failed to sync " ++ u.handle ++ ": " ++ e)
  | .ok _ => none

theorem processUser_blockCache (env : SyncEnv) (total : Nat) (s : LoopState)
    (u : FollowedUser) : (processUser env total s u).st.blockCache = s.st.blockCache := by
  unfold processUser
  split
  · rfl
  · rfl

theorem processUser_errors (env : SyncEnv) (total : Nat) (s : LoopState) (u : FollowedUser) :
    (processUser env total s u).errors = s.errors ++ (fetchFailMsg env u).toList := by
  unfold processUser fetchFailMsg
  rcases env.userBlocks u.did with e | fetched
  · rfl
  · simp

theorem processUser_lookup_none (env : SyncEnv) (total : Nat) (s : LoopState)
    (u : FollowedUser) (d : String) (hfetch : env.userBlocks d = .ok (some []))
    (h : s.cache.userBlockCaches.lookup d = none) :
    (processUser env total s u).cache.userBlockCaches.lookup d = none := by
  unfold processUser
  rcases hu : env.userBlocks u.did with e | fetched
  · exact h
  · dsimp only
    split
    · rename_i hb
      have hne : u.did ≠ d := by
        intro heq
        rw [heq, hfetch] at hu
        cases hu
        simp at hb
      rw [lookup_setEntry_ne _ _ _ _ hne]
      exact h
    · exact h

theorem processUser_lookup_some (env : SyncEnv) (total : Nat) (s : LoopState)
    (u : FollowedUser) (d : String) (h : s.cache.userBlockCaches.lookup d ≠ none) :
    (processUser env total s u).cache.userBlockCaches.lookup d ≠ none := by
  unfold processUser
  rcases hu : env.userBlocks u.did with e | fetched
  · exact h
  · dsimp only
    split
    · exact lookup_setEntry_some _ _ _ _ h
    · exact h

theorem processUser_writes (env : SyncEnv) (total : Nat) (s : LoopState) (u : FollowedUser)
    (r : Option (List String)) (hu : env.userBlocks u.did = .ok r) (hne : r.getD [] ≠ []) :
    (processUser env total s u).cache.userBlockCaches.lookup u.did ≠ none := by
  have hlen : (r.getD []).length > 0 := by
    rcases hr : r.getD [] with _ | ⟨x, xs⟩
    · exact absurd hr hne
    · simp
  unfold processUser
  rw [hu]
  dsimp only
  rw [if_pos hlen]
  rw [lookup_setEntry_self]
  simp

theorem foldl_processUser_blockCache (env : SyncEnv) (total : Nat)
    (users : List FollowedUser) (s : LoopState) :
    (users.foldl (processUser env total) s).st.blockCache = s.st.blockCache := by
  induction users generalizing s with
  | nil => rfl
  | cons u us ih => rw [List.foldl_cons, ih, processUser_blockCache]

theorem foldl_processUser_errors (env : SyncEnv) (total : Nat)
    (users : List FollowedUser) (s : LoopState) :
    (users.foldl (processUser env total) s).errors =
      s.errors ++ users.filterMap (fetchFailMsg env) := by
  induction users generalizing s with
  | nil => simp
  | cons u us ih =>
    rw [List.foldl_cons, ih, processUser_errors]
    rcases hm : fetchFailMsg env u with _ | msg
    · simp [List.filterMap_cons, hm]
    · simp [List.filterMap_cons, hm]

theorem foldl_processUser_lookup_none (env : SyncEnv) (total : Nat)
    (users : List FollowedUser) (s : LoopState) (d : String)
    (hfetch : env.userBlocks d = .ok (some []))
    (h : s.cache.userBlockCaches.lookup d = none) :
    (users.foldl (processUser env total) s).cache.userBlockCaches.lookup d = none := by
  induction users generalizing s with
  | nil => exact h
  | cons u us ih =>
    rw [List.foldl_cons]
    exact ih _ (processUser_lookup_none env total s u d hfetch h)

theorem foldl_processUser_lookup_some (env : SyncEnv) (total : Nat)
    (users : List FollowedUser) (s : LoopState) (d : String)
    (h : s.cache.userBlockCaches.lookup d ≠ none) :
    (users.foldl (processUser env total) s).cache.userBlockCaches.lookup d ≠ none := by
  induction users generalizing s with
  | nil => exact h
  | cons u us ih =>
    rw [List.foldl_cons]
    exact ih _ (processUser_lookup_some env total s u d h)

theorem foldl_processUser_writes (env : SyncEnv) (total : Nat)
    (users : List FollowedUser) (s : LoopState) (u : FollowedUser)
    (r : Option (List String)) (hmem : u ∈ users)
    (hu : env.userBlocks u.did = .ok r) (hne : r.getD [] ≠ []) :
    (users.foldl (processUser env total) s).cache.userBlockCaches.lookup u.did ≠ none := by
  induction users generalizing s with
  | nil => simp at hmem
  | cons w ws ih =>
    rw [List.foldl_cons]
    rcases List.mem_cons.1 hmem with heq | hmem2
    · subst heq
      exact foldl_processUser_lookup_some env total ws _ u.did
        (processUser_writes env total s u r hu hne)
    · exact ih _ hmem2

/-- Behaviour of `safeSaveBlockCache` on absence of an entry key: every store
it can leave behind, and the cache it hands back, still lack the key. -/
theorem safeSave_absence (env : SyncEnv) (st : Store) (cache : BlockCacheData) (d : String)
    (hc : cache.userBlockCaches.lookup d = none)
    (hst : ∀ c, st.blockCache = some c → c.userBlockCaches.lookup d = none) :
    ∀ b st2 cache2 att, safeSaveBlockCache env st cache = .ok (b, st2, cache2, att) →
      cache2.userBlockCaches.lookup d = none ∧
        ∀ c, st2.blockCache = some c → c.userBlockCaches.lookup d = none := by
  intro b st2 cache2 att h
  unfold safeSaveBlockCache at h
  rcases hf : env.saveFails cache with _ | msg <;> rw [hf] at h
  · simp only [Except.ok.injEq, Prod.mk.injEq] at h
    obtain ⟨h1, h2, h3, h4⟩ := h
    subst h2
    subst h3
    refine ⟨hc, ?_⟩
    intro c hcc
    simp only at hcc
    cases hcc
    exact hc
  · dsimp only at h
    split at h
    · rcases hf2 : env.saveFails (pruneCache cache) with _ | msg2 <;> rw [hf2] at h
      · simp only [Except.ok.injEq, Prod.mk.injEq] at h
        obtain ⟨h1, h2, h3, h4⟩ := h
        subst h2
        subst h3
        refine ⟨lookup_pruneCache_none _ _ hc, ?_⟩
        intro c hcc
        simp only at hcc
        cases hcc
        exact lookup_pruneCache_none _ _ hc
      · simp only [Except.ok.injEq, Prod.mk.injEq] at h
        obtain ⟨h1, h2, h3, h4⟩ := h
        subst h2
        subst h3
        exact ⟨lookup_pruneCache_none _ _ hc, hst⟩
    · simp at h

/-- Absence of an entry key is an invariant of the whole chunk loop when the
fetch for that key returns an empty list. -/
theorem syncChunks_absence (env : SyncEnv) (total numChunks : Nat) (d : String)
    (hfetch : env.userBlocks d = .ok (some [])) :
    ∀ (l : List (List FollowedUser)) (i : Nat) (s : LoopState),
      s.cache.userBlockCaches.lookup d = none →
      (∀ c, s.st.blockCache = some c → c.userBlockCaches.lookup d = none) →
      match syncChunks env total numChunks l i s with
      | .ok sF =>
        sF.cache.userBlockCaches.lookup d = none ∧
          ∀ c, sF.st.blockCache = some c → c.userBlockCaches.lookup d = none
      | .error ms => ∀ c, ms.2.blockCache = some c → c.userBlockCaches.lookup d = none := by
  intro l
  induction l with
  | nil =>
    intro i s hc hst
    exact ⟨hc, hst⟩
  | cons chunkArr rest ih =>
    intro i s hc hst
    have hc2 : (chunkArr.foldl (processUser env total) s).cache.userBlockCaches.lookup d =
        none := foldl_processUser_lookup_none env total chunkArr s d hfetch hc
    have hst2 : ∀ c, (chunkArr.foldl (processUser env total) s).st.blockCache = some c →
        c.userBlockCaches.lookup d = none := by
      rw [foldl_processUser_blockCache]
      exact hst
    rw [syncChunks]
    dsimp only
    by_cases hcond : (i + 1) % SAVE_INTERVAL = 0 ∨ i = numChunks - 1
    · rw [if_pos hcond]
      rcases hsv : safeSaveBlockCache env (chunkArr.foldl (processUser env total) s).st
          { (chunkArr.foldl (processUser env total) s).cache with lastFullSync := env.now } with
        msg | ⟨b, st2, cache2, att⟩
      · exact hst2
      · have hsafe := safeSave_absence env (chunkArr.foldl (processUser env total) s).st
          { (chunkArr.foldl (processUser env total) s).cache with lastFullSync := env.now } d
          hc2 hst2 b st2 cache2 att hsv
        exact ih (i + 1) _ hsafe.1 hsafe.2
    · rw [if_neg hcond]
      exact ih (i + 1) _ hc2 hst2

theorem run_absence (env : SyncEnv) (st : Store) (cache1 : BlockCacheData) (r : Bool)
    (d : String) (hfetch : env.userBlocks d = .ok (some []))
    (hc : cache1.userBlockCaches.lookup d = none)
    (hst : ∀ c, st.blockCache = some c → c.userBlockCaches.lookup d = none) :
    ∀ c2, (performFullSyncRun env st cache1 r).store.blockCache = some c2 →
      c2.userBlockCaches.lookup d = none := by
  unfold performFullSyncRun
  rcases env.allFollows with msg | follows
  · intro c2 hcc
    exact hst c2 hcc
  · dsimp only
    have hmain := syncChunks_absence env follows.length
      (chunkList follows RATE_LIMIT_CONCURRENT).length d hfetch
      (chunkList follows RATE_LIMIT_CONCURRENT) 0
      { st := st, cache := { cache1 with followedUsers := follows }, syncedCount := 0,
        errors := [] } hc hst
    rcases hrun : syncChunks env follows.length (chunkList follows RATE_LIMIT_CONCURRENT).length
        (chunkList follows RATE_LIMIT_CONCURRENT) 0
        { st := st, cache := { cache1 with followedUsers := follows }, syncedCount := 0,
          errors := [] } with ms | sF
    · rw [hrun] at hmain
      intro c2 hcc
      exact hmain c2 hcc
    · rw [hrun] at hmain
      intro c2 hcc
      exact hmain.2 c2 hcc

theorem selectCache_absence (stored : Option BlockCacheData) (authDid d : String)
    (hstart : ∀ c, stored = some c → c.userBlockCaches.lookup d = none) :
    (selectCache stored authDid).userBlockCaches.lookup d = none := by
  rcases hbc : stored with _ | c
  · rfl
  · show (if c.currentUserDid = authDid then c
        else createEmptyCache authDid).userBlockCaches.lookup d = none
    split
    · exact hstart c hbc
    · rfl

theorem proactivePrune_absence (env : SyncEnv) (st2 : Store) (cache0 : BlockCacheData)
    (d : String) (hc : cache0.userBlockCaches.lookup d = none)
    (hst : ∀ c, st2.blockCache = some c → c.userBlockCaches.lookup d = none) :
    (∀ st3 cache1, proactivePrune env st2 cache0 = .ok (st3, cache1) →
        cache1.userBlockCaches.lookup d = none ∧
          ∀ c, st3.blockCache = some c → c.userBlockCaches.lookup d = none) ∧
      (∀ me, proactivePrune env st2 cache0 = .error me →
        ∀ c, me.2.blockCache = some c → c.userBlockCaches.lookup d = none) := by
  constructor
  · intro st3 cache1 h
    unfold proactivePrune at h
    split at h
    · rcases hsv : safeSaveBlockCache env st2 (pruneCache cache0) with
        msg | ⟨b, st4, cache2, att⟩ <;> rw [hsv] at h
      · simp at h
      · simp only [Except.ok.injEq, Prod.mk.injEq] at h
        obtain ⟨h1, h2⟩ := h
        subst h1
        subst h2
        exact safeSave_absence env st2 (pruneCache cache0) d
          (lookup_pruneCache_none _ _ hc) hst b _ _ att hsv
    · simp only [Except.ok.injEq, Prod.mk.injEq] at h
      obtain ⟨h1, h2⟩ := h
      subst h1
      subst h2
      exact ⟨hc, hst⟩
  · intro me h
    unfold proactivePrune at h
    split at h
    · rcases hsv : safeSaveBlockCache env st2 (pruneCache cache0) with
        msg | ⟨b, st4, cache2, att⟩ <;> rw [hsv] at h
      · simp only [Except.error.injEq] at h
        subst h
        exact hst
      · simp at h
    · simp at h

theorem body_absence (env : SyncEnv) (st : Store) (r : Bool) (d : String)
    (hfetch : env.userBlocks d = .ok (some []))
    (hstart : ∀ c, st.blockCache = some c → c.userBlockCaches.lookup d = none) :
    ∀ c2, (performFullSyncBody env st r).store.blockCache = some c2 →
      c2.userBlockCaches.lookup d = none := by
  unfold performFullSyncBody
  dsimp only
  split
  · intro c2 hcc
    exact hstart c2 hcc
  · rcases hppe : proactivePrune env
        (updateSyncStatus env.now
          { isRunning := some true, errors := some [], syncedFollows := some 0 } st)
        (selectCache
          (updateSyncStatus env.now
            { isRunning := some true, errors := some [], syncedFollows := some 0 } st).blockCache
          (match st.auth with
            | none => ""
            | some auth => auth.did)) with me | ⟨st3, cache1⟩
    · intro c2 hcc
      exact (proactivePrune_absence env
        (updateSyncStatus env.now
          { isRunning := some true, errors := some [], syncedFollows := some 0 } st)
        _ d (selectCache_absence _ _ _ hstart) hstart).2 me hppe c2 hcc
    · have hpp := (proactivePrune_absence env
        (updateSyncStatus env.now
          { isRunning := some true, errors := some [], syncedFollows := some 0 } st)
        _ d (selectCache_absence _ _ _ hstart) hstart).1 st3 cache1 hppe
      exact run_absence env st3 cache1 r d hfetch hpp.1 hpp.2

/-- C8 (amended): for every followed user whose block-list fetch succeeds and
returns an empty list, the sync pass writes no per-user block entry for that
user; if the persisted cache the pass starts from has no entry for that user,
the cache persisted at the end of the pass has none either.  (A pre-existing
entry from an earlier pass is left in place, which is what the
counterexample exhibits against the claim as stated.) -/
theorem empty_blocklist_not_stored (env : SyncEnv) (st : Store) (u : FollowedUser)
    (hfetch : env.userBlocks u.did = .ok (some []))
    (hstart : ∀ c, st.blockCache = some c → c.userBlockCaches.lookup u.did = none) :
    ∀ c, (performFullSync env st).store.blockCache = some c →
      c.userBlockCaches.lookup u.did = none := by
  unfold performFullSync
  dsimp only
  split
  · intro c hcc
    exact hstart c hcc
  · split
    · exact body_absence env _ _ u.did hfetch
        (by
          intro c hcc
          exact hstart c hcc)
    · exact body_absence env _ _ u.did hfetch hstart

/-- The followed user of the C8 scenario. -/
def uC8 : FollowedUser := { did := "dX", handle := "hx", displayName := none, avatar := none }

/-- A block entry for `uC8` left behind by an earlier sync pass. -/
def oldEntryC8 : UserBlockCache :=
  { did := "dX", handle := "hx", displayName := none, avatar := none, blocks := ["b0"],
    lastSynced := 1 }

/-- Store whose persisted cache still holds `oldEntryC8`. -/
def storeC8 : Store :=
  { syncStatus := none
    blockCache := some
      { followedUsers := [uC8]
        userBlockCaches := [("dX", oldEntryC8)]
        lastFullSync := 0
        currentUserDid := "did:me" }
    auth := some { accessJwt := "jwt", did := "did:me", handle := "me", pdsUrl := "p" } }

/-- Environment in which every block fetch succeeds with an empty list. -/
def envC8 : SyncEnv :=
  { now := 9
    allFollows := .ok [uC8]
    userBlocks := fun _ => .ok (some [])
    saveFails := fun _ => none }

/-- Counterexample to C8 as stated: `uC8`'s fetch succeeds with an empty
list, the pass completes, yet the cache persisted at the end of the pass
still contains the stale entry for `uC8` (the pass writes nothing for the
user but also deletes nothing). -/
theorem empty_blocklist_counterexample :
    envC8.userBlocks uC8.did = .ok (some []) ∧
      (performFullSync envC8 storeC8).outcome = .completed ∧
      ((performFullSync envC8 storeC8).store.blockCache.map
        fun c => c.userBlockCaches.lookup "dX") = some (some oldEntryC8) := by
  refine ⟨rfl, by decide, by decide⟩

/-- Witness for the amended C8 on a fresh store. -/
theorem empty_blocklist_not_stored_witness :
    envC8.userBlocks uC8.did = .ok (some []) ∧
      ((performFullSync envC8 storeC9).store.blockCache.map
        fun c => c.userBlockCaches.lookup uC8.did) = some none := by
  constructor
  · rfl
  · have h := empty_blocklist_not_stored envC8 storeC9 uC8 rfl
      (fun c hcc => by simp [storeC9] at hcc)
    have hbc : (performFullSync envC8 storeC9).store.blockCache ≠ none := by decide
    rcases hx : (performFullSync envC8 storeC9).store.blockCache with _ | c
    · exact absurd hx hbc
    · show some (c.userBlockCaches.lookup uC8.did) = some none
      rw [h c hx]

/-! ## Partial fetch failure (C7) -/

/-- Did the fetch of this user's block list throw? -/
def exceptIsErr (e : Except String (Option (List String))) : Bool :=
  match e with
  | .error _ => true
  | .ok _ => false

theorem length_filterMap_fetchFail (env : SyncEnv) (l : List FollowedUser) :
    (l.filterMap (fetchFailMsg env)).length =
      (l.filter fun u => exceptIsErr (env.userBlocks u.did)).length := by
  induction l with
  | nil => rfl
  | cons u us ih =>
    rw [List.filterMap_cons, List.filter_cons]
    rcases hu : env.userBlocks u.did with e | r
    · rw [show fetchFailMsg env u = some ("Failed to sync " ++ u.handle ++ ": " ++ e) from by
        unfold fetchFailMsg
        rw [hu]]
      simp [exceptIsErr, ih]
    · rw [show fetchFailMsg env u = none from by
        unfold fetchFailMsg
        rw [hu]]
      simp [exceptIsErr, ih]

theorem syncChunks_save_none (env : SyncEnv) (total numChunks : Nat)
    (hsave : ∀ c, env.saveFails c = none) :
    ∀ (l : List (List FollowedUser)) (i : Nat) (s : LoopState),
      ∃ sF, syncChunks env total numChunks l i s = .ok sF ∧
        sF.errors = s.errors ++ l.flatten.filterMap (fetchFailMsg env) ∧
        (∀ d, s.cache.userBlockCaches.lookup d ≠ none →
          sF.cache.userBlockCaches.lookup d ≠ none) ∧
        (∀ u r, u ∈ l.flatten → env.userBlocks u.did = .ok r → r.getD [] ≠ [] →
          sF.cache.userBlockCaches.lookup u.did ≠ none) := by
  intro l
  induction l with
  | nil =>
    intro i s
    refine ⟨s, rfl, by simp, fun d h => h, ?_⟩
    intro u r hm
    simp at hm
  | cons chunkArr rest ih =>
    intro i s
    by_cases hcond : (i + 1) % SAVE_INTERVAL = 0 ∨ i = numChunks - 1
    · obtain ⟨sF, hF, herr, hmono, hwr⟩ := ih (i + 1)
        { chunkArr.foldl (processUser env total) s with
          st := { (chunkArr.foldl (processUser env total) s).st with
            blockCache := some
              { (chunkArr.foldl (processUser env total) s).cache with lastFullSync := env.now } }
          cache := { (chunkArr.foldl (processUser env total) s).cache with
            lastFullSync := env.now } }
      refine ⟨sF, ?_, ?_, ?_, ?_⟩
      · rw [syncChunks]
        dsimp only
        rw [if_pos hcond, safeSave_ok_of_none env _ _ hsave]
        exact hF
      · rw [herr]
        show (chunkArr.foldl (processUser env total) s).errors ++ _ = _
        rw [foldl_processUser_errors, List.flatten_cons, List.filterMap_append,
          List.append_assoc]
      · intro d hd
        refine hmono d ?_
        show ((chunkArr.foldl (processUser env total) s).cache.userBlockCaches.lookup d ≠ none)
        exact foldl_processUser_lookup_some env total chunkArr s d hd
      · intro u r hm hu hner
        rw [List.flatten_cons] at hm
        rcases List.mem_append.1 hm with hm2 | hm2
        · refine hmono u.did ?_
          show ((chunkArr.foldl (processUser env total) s).cache.userBlockCaches.lookup u.did ≠
            none)
          exact foldl_processUser_writes env total chunkArr s u r hm2 hu hner
        · exact hwr u r hm2 hu hner
    · obtain ⟨sF, hF, herr, hmono, hwr⟩ := ih (i + 1) (chunkArr.foldl (processUser env total) s)
      refine ⟨sF, ?_, ?_, ?_, ?_⟩
      · rw [syncChunks]
        dsimp only
        rw [if_neg hcond]
        exact hF
      · rw [herr, foldl_processUser_errors, List.flatten_cons, List.filterMap_append,
          List.append_assoc]
      · intro d hd
        exact hmono d (foldl_processUser_lookup_some env total chunkArr s d hd)
      · intro u r hm hu hner
        rw [List.flatten_cons] at hm
        rcases List.mem_append.1 hm with hm2 | hm2
        · exact hmono u.did (foldl_processUser_writes env total chunkArr s u r hm2 hu hner)
        · exact hwr u r hm2 hu hner

theorem syncChunks_last_save (env : SyncEnv) (total numChunks : Nat)
    (hsave : ∀ c, env.saveFails c = none) :
    ∀ (l : List (List FollowedUser)) (i : Nat) (s sF : LoopState), l ≠ [] →
      i + l.length = numChunks →
      syncChunks env total numChunks l i s = .ok sF →
      sF.st.blockCache = some sF.cache := by
  intro l
  induction l with
  | nil =>
    intro i s sF h
    exact absurd rfl h
  | cons chunkArr rest ih =>
    intro i s sF hne hlen hrun
    by_cases hrest : rest = []
    · subst hrest
      have hcond : (i + 1) % SAVE_INTERVAL = 0 ∨ i = numChunks - 1 := by
        right
        simp only [List.length_cons, List.length_nil] at hlen
        omega
      rw [syncChunks] at hrun
      dsimp only at hrun
      rw [if_pos hcond, safeSave_ok_of_none env _ _ hsave] at hrun
      dsimp only at hrun
      rw [syncChunks] at hrun
      simp only [Except.ok.injEq] at hrun
      subst hrun
      rfl
    · have hlen2 : i + 1 + rest.length = numChunks := by
        simp only [List.length_cons] at hlen
        omega
      rw [syncChunks] at hrun
      dsimp only at hrun
      by_cases hcond : (i + 1) % SAVE_INTERVAL = 0 ∨ i = numChunks - 1
      · rw [if_pos hcond, safeSave_ok_of_none env _ _ hsave] at hrun
        dsimp only at hrun
        exact ih (i + 1) _ sF hrest hlen2 hrun
      · rw [if_neg hcond] at hrun
        exact ih (i + 1) _ sF hrest hlen2 hrun

theorem run_partial_failure (env : SyncEnv) (st : Store) (cache1 : BlockCacheData) (r : Bool)
    (follows : List FollowedUser) (hget : env.allFollows = .ok follows) (hnil : follows ≠ [])
    (hsave : ∀ c, env.saveFails c = none) :
    (performFullSyncRun env st cache1 r).outcome = .completed ∧
      (getSyncStatusOf (performFullSyncRun env st cache1 r).store).errors =
        follows.filterMap (fetchFailMsg env) ∧
      (∀ u r2, u ∈ follows → env.userBlocks u.did = .ok r2 → r2.getD [] ≠ [] →
        ∃ c, (performFullSyncRun env st cache1 r).store.blockCache = some c ∧
          c.userBlockCaches.lookup u.did ≠ none) := by
  have hflat : (chunkList follows RATE_LIMIT_CONCURRENT).flatten = follows :=
    chunkList_flatten follows RATE_LIMIT_CONCURRENT (by norm_num [RATE_LIMIT_CONCURRENT])
  obtain ⟨sF, hF, herr, hmono, hwr⟩ := syncChunks_save_none env follows.length
    (chunkList follows RATE_LIMIT_CONCURRENT).length hsave
    (chunkList follows RATE_LIMIT_CONCURRENT) 0
    { st := st, cache := { cache1 with followedUsers := follows }, syncedCount := 0,
      errors := [] }
  have hstore : sF.st.blockCache = some sF.cache := by
    refine syncChunks_last_save env follows.length
      (chunkList follows RATE_LIMIT_CONCURRENT).length hsave
      (chunkList follows RATE_LIMIT_CONCURRENT) 0
      { st := st, cache := { cache1 with followedUsers := follows }, syncedCount := 0,
        errors := [] } sF ?_ (by simp) hF
    rcases hfc : follows with _ | ⟨a, rest⟩
    · exact absurd hfc hnil
    · exact chunkList_ne_nil a rest RATE_LIMIT_CONCURRENT
  unfold performFullSyncRun
  rw [hget]
  dsimp only
  rw [hF]
  refine ⟨rfl, ?_, ?_⟩
  · show sF.errors = _
    rw [herr, hflat]
    simp
  · intro u r2 hm hu hner
    refine ⟨sF.cache, ?_, ?_⟩
    · show sF.st.blockCache = some sF.cache
      exact hstore
    · exact hwr u r2 (by rw [hflat]; exact hm) hu hner

theorem body_partial_failure (env : SyncEnv) (st : Store) (r : Bool) (a : BskySession)
    (follows : List FollowedUser) (ha : st.auth = some a) (hadid : a.did ≠ "")
    (hget : env.allFollows = .ok follows) (hnil : follows ≠ [])
    (hsave : ∀ c, env.saveFails c = none) :
    (performFullSyncBody env st r).outcome = .completed ∧
      (getSyncStatusOf (performFullSyncBody env st r).store).errors =
        follows.filterMap (fetchFailMsg env) ∧
      (∀ u r2, u ∈ follows → env.userBlocks u.did = .ok r2 → r2.getD [] ≠ [] →
        ∃ c, (performFullSyncBody env st r).store.blockCache = some c ∧
          c.userBlockCaches.lookup u.did ≠ none) := by
  unfold performFullSyncBody
  dsimp only
  rw [ha]
  dsimp only
  rw [if_neg hadid]
  rcases hppe : proactivePrune env
      (updateSyncStatus env.now
        { isRunning := some true, errors := some [], syncedFollows := some 0 } st)
      (selectCache
        (updateSyncStatus env.now
          { isRunning := some true, errors := some [], syncedFollows := some 0 } st).blockCache
        a.did) with me | ⟨st3, cache1⟩
  · exact absurd hppe (proactivePrune_ne_error _ _ _ hsave me)
  · exact run_partial_failure env st3 cache1 r follows hget hnil hsave

/-- C7 (amended): in a sync pass over followed users in which the block-list
fetch fails for exactly 2 of 10 users and succeeds with a nonempty list for
the others, the pass runs to completion, the final `SyncStatus.errors` has
exactly 2 entries (one per failed fetch), and every user whose fetch
succeeded has an entry in the cache persisted at the end of the pass.
(Without the nonempty proviso a succeeded user can end up with no entry —
the counterexample.) -/
theorem partial_fetch_failure (env : SyncEnv) (st : Store) (a : BskySession)
    (follows : List FollowedUser)
    (hlock : (getSyncStatusOf st).isRunning = false)
    (ha : st.auth = some a) (hadid : a.did ≠ "")
    (hget : env.allFollows = .ok follows) (hlen : follows.length = 10)
    (hfail : (follows.filter fun u => exceptIsErr (env.userBlocks u.did)).length = 2)
    (hok : ∀ u ∈ follows, ∀ r2, env.userBlocks u.did = .ok r2 → r2.getD [] ≠ [])
    (hsave : ∀ c, env.saveFails c = none) :
    (performFullSync env st).outcome = .completed ∧
      (getSyncStatusOf (performFullSync env st).store).errors.length = 2 ∧
      (∀ u ∈ follows, (∃ r2, env.userBlocks u.did = .ok r2) →
        ∃ c, (performFullSync env st).store.blockCache = some c ∧
          c.userBlockCaches.lookup u.did ≠ none) := by
  have hnil : follows ≠ [] := by
    intro hf
    rw [hf] at hlen
    simp at hlen
  unfold performFullSync
  dsimp only
  rw [hlock]
  simp only [Bool.false_eq_true, false_and, if_false]
  obtain ⟨hout, herr, hpres⟩ :=
    body_partial_failure env st false a follows ha hadid hget hnil hsave
  refine ⟨hout, ?_, ?_⟩
  · rw [herr, length_filterMap_fetchFail, hfail]
  · intro u hm hex
    obtain ⟨r2, hr2⟩ := hex
    exact hpres u r2 hm hr2 (hok u hm r2 hr2)

/-! ## Quota eviction (C4) -/

/-- Sum of `estimateObjectSize` over the per-user entries alone (what the
prune loop subtracts in total when it deletes every entry). -/
def entriesSizeSum (m : List (String × UserBlockCache)) : Nat :=
  (m.map fun e => jsonSizeUBC e.2).sum

/-- Serialized size of everything in the cache record except the per-user
entry fields themselves. -/
def estimateOtherSize (c : BlockCacheData) : Nat :=
  5 + jsonFieldSize "followedUsers" (jsonArraySize (c.followedUsers.map jsonSizeFollowedUser))
    + jsonFieldSize "lastFullSync" (jsonNatSize c.lastFullSync)
    + jsonFieldSize "currentUserDid" (jsonStringSize c.currentUserDid)
    + jsonStringSize "userBlockCaches" + 1

theorem estimateObjectSize_split (c : BlockCacheData) (m : List (String × UserBlockCache)) :
    estimateObjectSize { c with userBlockCaches := m } =
      estimateOtherSize c +
        (2 + (m.map fun e => jsonFieldSize e.1 (jsonSizeUBC e.2)).sum + (m.length - 1)) := by
  simp only [estimateObjectSize, estimateOtherSize, jsonObjSize, jsonFieldSize, List.sum_cons,
    List.sum_nil, List.length_cons, List.length_nil, List.length_map]
  omega

theorem insertByCountDesc_perm (x : String × Nat) (l : List (String × Nat)) :
    (insertByCountDesc x l).Perm (x :: l) := by
  induction l with
  | nil => exact List.Perm.refl _
  | cons y ys ih =>
    rw [insertByCountDesc]
    by_cases h : x.2 ≥ y.2
    · rw [if_pos h]
    · rw [if_neg h]
      exact (List.Perm.cons y ih).trans (List.Perm.swap x y ys)

theorem sortByCountDesc_perm (l : List (String × Nat)) : (sortByCountDesc l).Perm l := by
  induction l with
  | nil => exact List.Perm.refl _
  | cons x xs ih =>
    rw [sortByCountDesc]
    exact (insertByCountDesc_perm x (sortByCountDesc xs)).trans (List.Perm.cons x ih)

theorem insertByCountDesc_pairwise (x : String × Nat) (l : List (String × Nat))
    (h : l.Pairwise fun a b => b.2 ≤ a.2) :
    (insertByCountDesc x l).Pairwise fun a b => b.2 ≤ a.2 := by
  induction l with
  | nil => exact List.pairwise_singleton _ x
  | cons y ys ih =>
    rw [insertByCountDesc]
    rcases List.pairwise_cons.1 h with ⟨hy, hys⟩
    by_cases hc : x.2 ≥ y.2
    · rw [if_pos hc]
      refine List.pairwise_cons.2 ⟨?_, h⟩
      intro b hb
      rcases List.mem_cons.1 hb with hb | hb
      · rw [hb]
        exact hc
      · exact le_trans (hy b hb) hc
    · rw [if_neg hc]
      refine List.pairwise_cons.2 ⟨?_, ih hys⟩
      intro b hb
      rcases List.mem_cons.1 ((insertByCountDesc_perm x ys).mem_iff.1 hb) with hb2 | hb2
      · rw [hb2]
        omega
      · exact hy b hb2

theorem sortByCountDesc_pairwise (l : List (String × Nat)) :
    (sortByCountDesc l).Pairwise fun a b => b.2 ≤ a.2 := by
  induction l with
  | nil => exact List.Pairwise.nil
  | cons x xs ih => exact insertByCountDesc_pairwise x _ ih

/-- With unique keys, two entries sharing a key are the same entry. -/
theorem keys_nodup_value_eq (m : List (String × UserBlockCache))
    (hnd : (m.map Prod.fst).Nodup) (a : String) (b1 b2 : UserBlockCache)
    (h1 : (a, b1) ∈ m) (h2 : (a, b2) ∈ m) : b1 = b2 := by
  induction m with
  | nil => cases h1
  | cons e rest ih =>
    rw [List.map_cons, List.nodup_cons] at hnd
    rcases List.mem_cons.1 h1 with h1 | h1
    · rcases List.mem_cons.1 h2 with h2 | h2
      · rw [← h1] at h2
        exact (congrArg Prod.snd h2).symm
      · exfalso
        refine hnd.1 ?_
        rw [← h1]
        exact List.mem_map.2 ⟨(a, b2), h2, rfl⟩
    · rcases List.mem_cons.1 h2 with h2 | h2
      · exfalso
        refine hnd.1 ?_
        rw [← h2]
        exact List.mem_map.2 ⟨(a, b1), h1, rfl⟩
      · exact ih hnd.2 h1 h2

theorem mem_keys_lookup (m : List (String × UserBlockCache)) (a : String)
    (h : a ∈ m.map Prod.fst) : ∃ e, m.lookup a = some e := by
  induction m with
  | nil => cases h
  | cons p rest ih =>
    rcases p with ⟨k, v⟩
    rw [List.map_cons, List.mem_cons] at h
    by_cases hk : a = k
    · subst hk
      exact ⟨v, by simp [List.lookup]⟩
    · have hmem : a ∈ rest.map Prod.fst := by
        rcases h with h | h
        · exact absurd h hk
        · exact h
      obtain ⟨e, he⟩ := ih hmem
      have hbe : (a == k) = false := beq_eq_false_iff_ne.2 hk
      exact ⟨e, by simp [List.lookup, hbe, he]⟩

theorem filter_ne_eq_self (m : List (String × UserBlockCache)) (k : String)
    (h : ∀ x ∈ m, x.1 ≠ k) : (m.filter fun e => e.1 != k) = m :=
  List.filter_eq_self.2 fun x hx => bne_iff_ne.2 (h x hx)

/-- With unique keys, deleting key `did` (the filter in the prune loop) splits
off exactly the entry `lookup` finds. -/
theorem perm_filter_ne_of_lookup (m : List (String × UserBlockCache)) (did : String)
    (e : UserBlockCache) (hnd : (m.map Prod.fst).Nodup) (hlk : m.lookup did = some e) :
    m.Perm ((did, e) :: (m.filter fun x => x.1 != did)) := by
  induction m with
  | nil => cases hlk
  | cons p rest ih =>
    rcases p with ⟨k, v⟩
    rw [List.map_cons, List.nodup_cons] at hnd
    by_cases hk : did = k
    · subst hk
      have hv : v = e := by
        have : List.lookup did ((did, v) :: rest) = some v := by simp [List.lookup]
        rw [hlk] at this
        exact (Option.some.injEq _ _ ▸ this.symm)
      subst hv
      have hrest : (rest.filter fun x => x.1 != did) = rest := by
        refine filter_ne_eq_self rest did fun x hx hxk => hnd.1 ?_
        rw [← hxk]
        exact List.mem_map.2 ⟨x, hx, rfl⟩
      rw [List.filter_cons]
      simp only [bne_self_eq_false, Bool.false_eq_true, if_false, hrest]
      exact List.Perm.refl _
    · have hbe : (did == k) = false := beq_eq_false_iff_ne.2 hk
      have hlk2 : rest.lookup did = some e := by
        rw [show List.lookup did ((k, v) :: rest) = rest.lookup did from by
          simp [List.lookup, hbe]] at hlk
        exact hlk
      have hperm := ih hnd.2 hlk2
      rw [List.filter_cons]
      have hkeep : (((k, v) : String × UserBlockCache).1 != did) = true :=
        bne_iff_ne.2 fun hc => hk hc.symm
      rw [if_pos hkeep]
      exact ((List.Perm.cons (k, v) hperm).trans (List.Perm.swap (did, e) (k, v) _))

theorem entriesSizeSum_filter (m : List (String × UserBlockCache)) (did : String)
    (e : UserBlockCache) (hnd : (m.map Prod.fst).Nodup) (hlk : m.lookup did = some e) :
    entriesSizeSum m = jsonSizeUBC e + entriesSizeSum (m.filter fun x => x.1 != did) := by
  have hperm := (perm_filter_ne_of_lookup m did e hnd hlk).map fun x => jsonSizeUBC x.2
  have := hperm.sum_eq
  rw [List.map_cons] at this
  rw [entriesSizeSum, this, List.sum_cons]
  rfl

theorem estimate_filter_le (c : BlockCacheData) (m : List (String × UserBlockCache))
    (did : String) (e : UserBlockCache) (hnd : (m.map Prod.fst).Nodup)
    (hlk : m.lookup did = some e) :
    estimateObjectSize { c with userBlockCaches := m.filter fun x => x.1 != did } +
      jsonSizeUBC e ≤ estimateObjectSize { c with userBlockCaches := m } := by
  have hperm := perm_filter_ne_of_lookup m did e hnd hlk
  have hsum := (hperm.map fun x => jsonFieldSize x.1 (jsonSizeUBC x.2)).sum_eq
  rw [List.map_cons, List.sum_cons] at hsum
  dsimp only at hsum
  rw [jsonFieldSize] at hsum
  have hlen := hperm.length_eq
  rw [List.length_cons] at hlen
  rw [estimateObjectSize_split, estimateObjectSize_split, hsum, hlen]
  have h2 : 2 ≤ jsonStringSize did := Nat.le_add_right 2 _
  omega

/-- The prune loop keeps the real serialized size under the running estimate,
and ends under the limit whenever removing every entry would suffice. -/
theorem pruneGo_le (c : BlockCacheData) :
    ∀ (l : List (String × Nat)) (cs : Int) (m : List (String × UserBlockCache)),
      (m.map Prod.fst).Nodup →
      (l.map Prod.fst).Perm (m.map Prod.fst) →
      (estimateObjectSize { c with userBlockCaches := m } : Int) ≤ cs →
      cs - (entriesSizeSum m : Int) ≤ (MAX_CACHE_SIZE_BYTES : Int) →
      (estimateObjectSize { c with userBlockCaches := pruneGo l cs m } : Int) ≤
        (MAX_CACHE_SIZE_BYTES : Int) := by
  intro l
  induction l with
  | nil =>
    intro cs m hnd hperm hle hres
    have hm : m = [] := List.map_eq_nil_iff.1 hperm.symm.eq_nil
    subst hm
    have h0 : entriesSizeSum ([] : List (String × UserBlockCache)) = 0 := rfl
    rw [h0] at hres
    exact le_trans hle (by omega)
  | cons x rest ih =>
    intro cs m hnd hperm hle hres
    rcases x with ⟨did, cnt⟩
    rw [List.map_cons] at hperm
    have hgo : pruneGo ((did, cnt) :: rest) cs m =
        if cs ≤ (MAX_CACHE_SIZE_BYTES : Int) then m
        else pruneGo rest (cs - (removedEntrySize m did : Int))
          (m.filter fun e => e.1 != did) := rfl
    rw [hgo]
    split
    · exact le_trans hle (by assumption)
    · have hdid : did ∈ m.map Prod.fst := hperm.mem_iff.1 (List.mem_cons_self did _)
      obtain ⟨e, hlk⟩ := mem_keys_lookup m did hdid
      have hrem : removedEntrySize m did = jsonSizeUBC e := by
        unfold removedEntrySize
        rw [hlk]
      have hnd' : ((m.filter fun e => e.1 != did).map Prod.fst).Nodup :=
        List.Nodup.sublist (List.Sublist.map Prod.fst (List.filter_sublist m)) hnd
      have hpermkeys : (rest.map Prod.fst).Perm
          ((m.filter fun e => e.1 != did).map Prod.fst) := by
        have h1 := (perm_filter_ne_of_lookup m did e hnd hlk).map Prod.fst
        rw [List.map_cons] at h1
        exact (hperm.trans h1).cons_inv
      have hle' : (estimateObjectSize
          { c with userBlockCaches := m.filter fun e => e.1 != did } : Int) ≤
          cs - (removedEntrySize m did : Int) := by
        have hacc := estimate_filter_le c m did e hnd hlk
        rw [hrem]
        omega
      have hres' : (cs - (removedEntrySize m did : Int)) -
          (entriesSizeSum (m.filter fun e => e.1 != did) : Int) ≤
          (MAX_CACHE_SIZE_BYTES : Int) := by
        have hsum := entriesSizeSum_filter m did e hnd hlk
        rw [hrem]
        omega
      exact ih _ _ hnd' hpermkeys hle' hres'

theorem pruneCache_le (c : BlockCacheData)
    (hnd : (c.userBlockCaches.map Prod.fst).Nodup)
    (hres : (estimateObjectSize c : Int) - (entriesSizeSum c.userBlockCaches : Int) ≤
      (MAX_CACHE_SIZE_BYTES : Int)) :
    estimateObjectSize (pruneCache c) ≤ MAX_CACHE_SIZE_BYTES := by
  have hp := (sortByCountDesc_perm
    (c.userBlockCaches.map fun e => (e.1, e.2.blocks.length))).map Prod.fst
  rw [List.map_map] at hp
  have hcomp : (Prod.fst ∘ fun e : String × UserBlockCache => (e.1, e.2.blocks.length)) =
      Prod.fst := rfl
  rw [hcomp] at hp
  have h := pruneGo_le c
    (sortByCountDesc (c.userBlockCaches.map fun e => (e.1, e.2.blocks.length)))
    (estimateObjectSize c : Int) c.userBlockCaches hnd hp (le_refl _) hres
  exact_mod_cast h

/-- The prune loop deletes the keys of a prefix of its count-sorted list and
keeps everything else. -/
theorem pruneGo_prefix :
    ∀ (l : List (String × Nat)) (cs : Int) (m : List (String × UserBlockCache)),
      ∃ k, pruneGo l cs m =
        m.filter fun e => (l.take k).all fun q => e.1 != q.1 := by
  intro l
  induction l with
  | nil =>
    intro cs m
    refine ⟨0, ?_⟩
    show m = m.filter fun e => (([] : List (String × Nat)).take 0).all fun q => e.1 != q.1
    simp
  | cons x rest ih =>
    intro cs m
    rcases x with ⟨did, cnt⟩
    have hgo : pruneGo ((did, cnt) :: rest) cs m =
        if cs ≤ (MAX_CACHE_SIZE_BYTES : Int) then m
        else pruneGo rest (cs - (removedEntrySize m did : Int))
          (m.filter fun e => e.1 != did) := rfl
    rw [hgo]
    by_cases hc : cs ≤ (MAX_CACHE_SIZE_BYTES : Int)
    · rw [if_pos hc]
      refine ⟨0, ?_⟩
      simp
    · rw [if_neg hc]
      obtain ⟨k, hk⟩ := ih (cs - (removedEntrySize m did : Int)) (m.filter fun e => e.1 != did)
      refine ⟨k + 1, ?_⟩
      rw [hk, List.filter_filter]
      refine List.filter_congr fun a ha => ?_
      simp [List.take_succ_cons, List.all_cons, Bool.and_comm]

theorem pruneCache_ubc (c : BlockCacheData) :
    ∃ k, (pruneCache c).userBlockCaches =
      c.userBlockCaches.filter fun e =>
        (((sortByCountDesc (c.userBlockCaches.map fun x => (x.1, x.2.blocks.length))).take k).all
          fun q => e.1 != q.1) := by
  obtain ⟨k, hk⟩ := pruneGo_prefix
    (sortByCountDesc (c.userBlockCaches.map fun x => (x.1, x.2.blocks.length)))
    (estimateObjectSize c : Int) c.userBlockCaches
  refine ⟨k, ?_⟩
  show pruneGo (sortByCountDesc (c.userBlockCaches.map fun x => (x.1, x.2.blocks.length)))
    (estimateObjectSize c : Int) c.userBlockCaches = _
  exact hk

/-- Entries removed by `pruneCache` always have at least as many blocks as
every entry it keeps (the loop walks a block-count-sorted list). -/
theorem pruneCache_order (c : BlockCacheData)
    (hnd : (c.userBlockCaches.map Prod.fst).Nodup) :
    ∀ p ∈ c.userBlockCaches, p.1 ∉ (pruneCache c).userBlockCaches.map Prod.fst →
      ∀ q ∈ (pruneCache c).userBlockCaches, q.2.blocks.length ≤ p.2.blocks.length := by
  obtain ⟨k, hk⟩ := pruneCache_ubc c
  intro p hp hrem q hq
  rw [hk] at hq hrem
  have hqm : q ∈ c.userBlockCaches := (List.mem_filter.1 hq).1
  have hqpred := (List.mem_filter.1 hq).2
  have hpmem : (p.1, p.2.blocks.length) ∈
      sortByCountDesc (c.userBlockCaches.map fun x => (x.1, x.2.blocks.length)) :=
    (sortByCountDesc_perm _).mem_iff.2 (List.mem_map.2 ⟨p, hp, rfl⟩)
  have hpred : ¬ ((((sortByCountDesc
      (c.userBlockCaches.map fun x => (x.1, x.2.blocks.length))).take k).all
      fun q2 => p.1 != q2.1) = true) := by
    intro hpt
    exact hrem (List.mem_map.2 ⟨p, List.mem_filter.2 ⟨hp, hpt⟩, rfl⟩)
  rw [List.all_eq_true] at hpred
  push_neg at hpred
  obtain ⟨q2, hq2mem, hq2ne⟩ := hpred
  have hq2key : p.1 = q2.1 := by
    by_contra hne
    exact hq2ne (bne_iff_ne.2 hne)
  have hqin : (q.1, q.2.blocks.length) ∈
      sortByCountDesc (c.userBlockCaches.map fun x => (x.1, x.2.blocks.length)) :=
    (sortByCountDesc_perm _).mem_iff.2 (List.mem_map.2 ⟨q, hqm, rfl⟩)
  have hqdrop : (q.1, q.2.blocks.length) ∈
      (sortByCountDesc (c.userBlockCaches.map fun x => (x.1, x.2.blocks.length))).drop k := by
    have hsplit := hqin
    rw [← List.take_append_drop k
      (sortByCountDesc (c.userBlockCaches.map fun x => (x.1, x.2.blocks.length)))] at hsplit
    rcases List.mem_append.1 hsplit with hin | hin
    · exfalso
      have hb := List.all_eq_true.1 hqpred _ hin
      rw [bne_iff_ne] at hb
      exact hb rfl
    · exact hin
  have hq2sorted : q2 ∈
      sortByCountDesc (c.userBlockCaches.map fun x => (x.1, x.2.blocks.length)) :=
    (List.take_sublist k _).subset hq2mem
  obtain ⟨e2, he2, he2eq⟩ :=
    List.mem_map.1 ((sortByCountDesc_perm _).mem_iff.1 hq2sorted)
  have he2key : e2.1 = p.1 := by
    rw [hq2key, ← he2eq]
  have hval : e2.2 = p.2 := by
    refine keys_nodup_value_eq c.userBlockCaches hnd p.1 e2.2 p.2 ?_ ?_
    · rw [← he2key]
      exact (Prod.mk.eta ▸ he2)
    · exact (Prod.mk.eta ▸ hp)
  have hpw := sortByCountDesc_pairwise (c.userBlockCaches.map fun x => (x.1, x.2.blocks.length))
  rw [← List.take_append_drop k
    (sortByCountDesc (c.userBlockCaches.map fun x => (x.1, x.2.blocks.length)))] at hpw
  have hcross := (List.pairwise_append.1 hpw).2.2 q2 hq2mem _ hqdrop
  have hq2val : q2.2 = p.2.blocks.length := by
    rw [← he2eq, hval]
  rw [← hq2val]
  exact hcross

/-- On a quota error, `safeSaveBlockCache` retries exactly once with the
pruned cache: the attempt list is `[cache, pruneCache cache]`, a successful
retry stores the pruned cache, and a second failure reports `false` without
throwing. -/
theorem safeSave_quota_retry (env : SyncEnv) (st : Store) (c : BlockCacheData) (msg : String)
    (hm : env.saveFails c = some msg) (hq : isQuotaMsg msg = true) :
    (env.saveFails (pruneCache c) = none →
      safeSaveBlockCache env st c =
        .ok (true, { st with blockCache := some (pruneCache c) }, pruneCache c,
          [c, pruneCache c])) ∧
    (∀ msg2, env.saveFails (pruneCache c) = some msg2 →
      safeSaveBlockCache env st c = .ok (false, st, pruneCache c, [c, pruneCache c])) := by
  constructor
  · intro h2
    simp only [safeSaveBlockCache, hm]
    rw [if_pos hq, h2]
  · intro msg2 h2
    simp only [safeSaveBlockCache, hm]
    rw [if_pos hq, h2]

theorem safeSave_quota_ok (env : SyncEnv)
    (hq : ∀ c2 msg2, env.saveFails c2 = some msg2 → isQuotaMsg msg2 = true)
    (st : Store) (c : BlockCacheData) :
    ∃ r, safeSaveBlockCache env st c = .ok r := by
  rcases hm : env.saveFails c with _ | msg
  · exact ⟨_, by unfold safeSaveBlockCache; rw [hm]⟩
  · have h := safeSave_quota_retry env st c msg hm (hq c msg hm)
    rcases h2 : env.saveFails (pruneCache c) with _ | msg2
    · exact ⟨_, h.1 h2⟩
    · exact ⟨_, h.2 msg2 h2⟩

theorem syncChunks_quota_ok (env : SyncEnv) (total numChunks : Nat)
    (hq : ∀ c2 msg2, env.saveFails c2 = some msg2 → isQuotaMsg msg2 = true) :
    ∀ (l : List (List FollowedUser)) (i : Nat) (s : LoopState),
      ∃ sF, syncChunks env total numChunks l i s = .ok sF := by
  intro l
  induction l with
  | nil =>
    intro i s
    exact ⟨s, rfl⟩
  | cons chunkArr rest ih =>
    intro i s
    rw [syncChunks]
    dsimp only
    by_cases hcond : (i + 1) % SAVE_INTERVAL = 0 ∨ i = numChunks - 1
    · rw [if_pos hcond]
      obtain ⟨⟨saved, st2, cache2, att⟩, hr⟩ := safeSave_quota_ok env hq
        (chunkArr.foldl (processUser env total) s).st
        { (chunkArr.foldl (processUser env total) s).cache with lastFullSync := env.now }
      rw [hr]
      exact ih (i + 1) _
    · rw [if_neg hcond]
      exact ih (i + 1) _

theorem proactivePrune_quota_ok (env : SyncEnv)
    (hq : ∀ c2 msg2, env.saveFails c2 = some msg2 → isQuotaMsg msg2 = true)
    (st2 : Store) (cache0 : BlockCacheData) :
    ∃ st3 cache1, proactivePrune env st2 cache0 = .ok (st3, cache1) := by
  unfold proactivePrune
  by_cases hc : 10 * estimateObjectSize cache0 > 9 * MAX_CACHE_SIZE_BYTES
  · rw [if_pos hc]
    obtain ⟨⟨saved, st3, cache1, att⟩, hr⟩ := safeSave_quota_ok env hq st2 (pruneCache cache0)
    rw [hr]
    exact ⟨st3, cache1, rfl⟩
  · rw [if_neg hc]
    exact ⟨st2, cache0, rfl⟩

theorem run_quota_completes (env : SyncEnv) (st : Store) (cache1 : BlockCacheData) (r : Bool)
    (follows : List FollowedUser) (hget : env.allFollows = .ok follows)
    (hq : ∀ c2 msg2, env.saveFails c2 = some msg2 → isQuotaMsg msg2 = true) :
    (performFullSyncRun env st cache1 r).outcome = .completed := by
  unfold performFullSyncRun
  rw [hget]
  dsimp only
  obtain ⟨sF, hF⟩ := syncChunks_quota_ok env follows.length
    (chunkList follows RATE_LIMIT_CONCURRENT).length hq
    (chunkList follows RATE_LIMIT_CONCURRENT) 0
    { st := st, cache := { cache1 with followedUsers := follows }, syncedCount := 0,
      errors := [] }
  rw [hF]

theorem body_quota_completes (env : SyncEnv) (st : Store) (r : Bool) (a : BskySession)
    (follows : List FollowedUser) (ha : st.auth = some a) (hadid : a.did ≠ "")
    (hget : env.allFollows = .ok follows)
    (hq : ∀ c2 msg2, env.saveFails c2 = some msg2 → isQuotaMsg msg2 = true) :
    (performFullSyncBody env st r).outcome = .completed := by
  unfold performFullSyncBody
  dsimp only
  rw [ha]
  dsimp only
  rw [if_neg hadid]
  rcases hppe : proactivePrune env
      (updateSyncStatus env.now
        { isRunning := some true, errors := some [], syncedFollows := some 0 } st)
      (selectCache
        (updateSyncStatus env.now
          { isRunning := some true, errors := some [], syncedFollows := some 0 } st).blockCache
        a.did) with me | ⟨st3, cache1⟩
  · exfalso
    obtain ⟨st3, cache1, h⟩ := proactivePrune_quota_ok env hq
      (updateSyncStatus env.now
        { isRunning := some true, errors := some [], syncedFollows := some 0 } st)
      (selectCache
        (updateSyncStatus env.now
          { isRunning := some true, errors := some [], syncedFollows := some 0 } st).blockCache
        a.did)
    rw [hppe] at h
    cases h
  · exact run_quota_completes env st3 cache1 r follows hget hq

/-- C4 (amended): quota eviction.  (i) When removing every per-user entry
would bring the running estimate under the quota (the residual record is
small enough), `pruneCache` produces a cache whose serialized size is within
`MAX_CACHE_SIZE_BYTES`.  (ii) A cache already within the limit is left
untouched.  (iii) Entries are removed by DESCENDING BLOCK COUNT — every
removed entry has at least as many blocked dids as every kept entry — not by
their contribution to the serialized size, and the loop stops as soon as its
running estimate is within the limit.  (iv) After a quota-failing write the
save is retried exactly once with the pruned cache; a second failure is
reported as an unsaved result, not an exception.  (v) When every failing
write fails with a quota message, a pass that reaches the lock acquisition
still runs to completion. -/
theorem quota_eviction (env : SyncEnv) (st : Store) (c : BlockCacheData)
    (hnd : (c.userBlockCaches.map Prod.fst).Nodup) :
    ((estimateObjectSize c : Int) - (entriesSizeSum c.userBlockCaches : Int) ≤
        (MAX_CACHE_SIZE_BYTES : Int) →
      estimateObjectSize (pruneCache c) ≤ MAX_CACHE_SIZE_BYTES) ∧
    (estimateObjectSize c ≤ MAX_CACHE_SIZE_BYTES → pruneCache c = c) ∧
    (∀ p ∈ c.userBlockCaches, p.1 ∉ (pruneCache c).userBlockCaches.map Prod.fst →
      ∀ q ∈ (pruneCache c).userBlockCaches, q.2.blocks.length ≤ p.2.blocks.length) ∧
    (∀ msg, env.saveFails c = some msg → isQuotaMsg msg = true →
      (env.saveFails (pruneCache c) = none →
        safeSaveBlockCache env st c =
          .ok (true, { st with blockCache := some (pruneCache c) }, pruneCache c,
            [c, pruneCache c])) ∧
      (∀ msg2, env.saveFails (pruneCache c) = some msg2 →
        safeSaveBlockCache env st c = .ok (false, st, pruneCache c, [c, pruneCache c]))) ∧
    ((∀ c2 msg2, env.saveFails c2 = some msg2 → isQuotaMsg msg2 = true) →
      ∀ a follows, st.auth = some a → a.did ≠ "" → env.allFollows = .ok follows →
        (getSyncStatusOf st).isRunning = false →
        (performFullSync env st).outcome = .completed) := by
  refine ⟨pruneCache_le c hnd, ?_, pruneCache_order c hnd,
    fun msg hm hq => safeSave_quota_retry env st c msg hm hq, ?_⟩
  · intro hle
    unfold pruneCache
    dsimp only
    rcases hs : sortByCountDesc (c.userBlockCaches.map fun e => (e.1, e.2.blocks.length))
      with _ | ⟨x, xs⟩
    · rw [hs]
      rfl
    · rw [hs]
      rcases x with ⟨did, cnt⟩
      have hgo : pruneGo ((did, cnt) :: xs) (estimateObjectSize c : Int)
          c.userBlockCaches =
          if (estimateObjectSize c : Int) ≤ (MAX_CACHE_SIZE_BYTES : Int)
          then c.userBlockCaches
          else pruneGo xs ((estimateObjectSize c : Int) -
            (removedEntrySize c.userBlockCaches did : Int))
            (c.userBlockCaches.filter fun e => e.1 != did) := rfl
      rw [hgo, if_pos (by exact_mod_cast hle)]
  · intro hq a follows ha hadid hget hlock
    unfold performFullSync
    dsimp only
    rw [hlock]
    simp only [Bool.false_eq_true, false_and, if_false]
    exact body_quota_completes env st false a follows ha hadid hget hq

/-- One huge blocked did (8 388 500 characters). -/
def bigStrC4 : String := String.mk (List.replicate 8388500 'a')

/-- Entry with ONE block whose serialized size nearly fills the quota. -/
def entryXC4 : UserBlockCache :=
  { did := "X", handle := "hX", displayName := none, avatar := none, blocks := [bigStrC4],
    lastSynced := 1 }

/-- Entry with TWO tiny blocks (61 serialized bytes in total). -/
def entryYC4 : UserBlockCache :=
  { did := "Y", handle := "hY", displayName := none, avatar := none, blocks := ["y1", "y2"],
    lastSynced := 1 }

/-- Cache slightly over the quota: one huge single-block entry and one tiny
two-block entry. -/
def cacheC4 : BlockCacheData :=
  { followedUsers := []
    userBlockCaches := [("X", entryXC4), ("Y", entryYC4)]
    lastFullSync := 0
    currentUserDid := "did:me" }

theorem sum_bigStrC4 : (bigStrC4.data.map jsonCharSize).sum = 8388500 := by
  rw [show bigStrC4.data = List.replicate 8388500 'a' from rfl, List.map_replicate,
    show jsonCharSize 'a' = 1 from by decide, List.sum_replicate]
  norm_num

theorem jsonStringSize_eq (s : String) :
    jsonStringSize s = 2 + (s.data.map jsonCharSize).sum := rfl

theorem jsonStringSize_bigStrC4 : jsonStringSize bigStrC4 = 8388502 := by
  rw [jsonStringSize_eq, sum_bigStrC4]

theorem jsonSizeUBC_XC4 : jsonSizeUBC entryXC4 = 8388554 := by
  show jsonObjSize
    ([jsonFieldSize "did" (jsonStringSize "X"), jsonFieldSize "handle" (jsonStringSize "hX")] ++
      [] ++ [] ++
      [jsonFieldSize "blocks" (jsonArraySize ([bigStrC4].map jsonStringSize)),
        jsonFieldSize "lastSynced" (jsonNatSize 1)]) = 8388554
  rw [show ([bigStrC4].map jsonStringSize) = [jsonStringSize bigStrC4] from rfl,
    jsonStringSize_bigStrC4]
  decide

theorem jsonSizeUBC_YC4 : jsonSizeUBC entryYC4 = 61 := by decide

theorem estimateObjectSize_C4 : estimateObjectSize cacheC4 = 8388708 := by
  show jsonObjSize
    [jsonFieldSize "followedUsers" (jsonArraySize (([] : List FollowedUser).map
      jsonSizeFollowedUser)),
      jsonFieldSize "userBlockCaches" (jsonObjSize
        ([("X", entryXC4), ("Y", entryYC4)].map fun e => jsonFieldSize e.1 (jsonSizeUBC e.2))),
      jsonFieldSize "lastFullSync" (jsonNatSize 0),
      jsonFieldSize "currentUserDid" (jsonStringSize "did:me")] = 8388708
  rw [show ([("X", entryXC4), ("Y", entryYC4)].map fun e => jsonFieldSize e.1 (jsonSizeUBC e.2)) =
    [jsonFieldSize "X" (jsonSizeUBC entryXC4), jsonFieldSize "Y" (jsonSizeUBC entryYC4)]
    from rfl, jsonSizeUBC_XC4, jsonSizeUBC_YC4]
  decide

theorem entriesSizeSum_C4 : entriesSizeSum cacheC4.userBlockCaches = 8388615 := by
  show (([("X", entryXC4), ("Y", entryYC4)].map fun e => jsonSizeUBC e.2)).sum = 8388615
  rw [show ([("X", entryXC4), ("Y", entryYC4)].map fun e => jsonSizeUBC e.2) =
    [jsonSizeUBC entryXC4, jsonSizeUBC entryYC4] from rfl, jsonSizeUBC_XC4, jsonSizeUBC_YC4]
  decide

theorem pruneCache_ubc_eq (c : BlockCacheData) :
    (pruneCache c).userBlockCaches =
      pruneGo (sortByCountDesc (c.userBlockCaches.map fun e => (e.1, e.2.blocks.length)))
        (estimateObjectSize c : Int) c.userBlockCaches := rfl

theorem pruneCache_C4 : (pruneCache cacheC4).userBlockCaches = [] := by
  rw [pruneCache_ubc_eq]
  rw [show sortByCountDesc (cacheC4.userBlockCaches.map fun e => (e.1, e.2.blocks.length)) =
    [("Y", 2), ("X", 1)] from rfl, estimateObjectSize_C4]
  have hrem : removedEntrySize cacheC4.userBlockCaches "Y" = 61 := by
    rw [show removedEntrySize cacheC4.userBlockCaches "Y" = jsonSizeUBC entryYC4 from rfl,
      jsonSizeUBC_YC4]
  have h1 : pruneGo [("Y", 2), ("X", 1)] ((8388708 : Nat) : Int) cacheC4.userBlockCaches =
      pruneGo [("X", 1)]
        (((8388708 : Nat) : Int) - (removedEntrySize cacheC4.userBlockCaches "Y" : Int))
        (cacheC4.userBlockCaches.filter fun e => e.1 != "Y") := by
    rw [show pruneGo [("Y", 2), ("X", 1)] ((8388708 : Nat) : Int) cacheC4.userBlockCaches =
      if ((8388708 : Nat) : Int) ≤ (MAX_CACHE_SIZE_BYTES : Int)
      then cacheC4.userBlockCaches
      else pruneGo [("X", 1)]
        (((8388708 : Nat) : Int) - (removedEntrySize cacheC4.userBlockCaches "Y" : Int))
        (cacheC4.userBlockCaches.filter fun e => e.1 != "Y") from rfl]
    rw [if_neg (by norm_num [MAX_CACHE_SIZE_BYTES])]
  rw [h1, hrem]
  rw [show (cacheC4.userBlockCaches.filter fun e => e.1 != "Y") = [("X", entryXC4)] from rfl]
  have h2 : pruneGo [("X", 1)] (((8388708 : Nat) : Int) - ((61 : Nat) : Int))
      [("X", entryXC4)] =
      pruneGo []
        ((((8388708 : Nat) : Int) - ((61 : Nat) : Int)) -
          (removedEntrySize [("X", entryXC4)] "X" : Int))
        (([("X", entryXC4)] : List (String × UserBlockCache)).filter fun e => e.1 != "X") := by
    rw [show pruneGo [("X", 1)] (((8388708 : Nat) : Int) - ((61 : Nat) : Int))
        [("X", entryXC4)] =
      if (((8388708 : Nat) : Int) - ((61 : Nat) : Int)) ≤ (MAX_CACHE_SIZE_BYTES : Int)
      then [("X", entryXC4)]
      else pruneGo []
        ((((8388708 : Nat) : Int) - ((61 : Nat) : Int)) -
          (removedEntrySize [("X", entryXC4)] "X" : Int))
        (([("X", entryXC4)] : List (String × UserBlockCache)).filter fun e => e.1 != "X")
      from rfl]
    rw [if_neg (by norm_num [MAX_CACHE_SIZE_BYTES])]
  rw [h2]
  rfl

/-- Counterexample to C4 as stated: both entries fit the quota on their own
(the claim's proviso holds) and removing only the LARGEST entry would land
under the quota, yet `pruneCache` removes the tiny two-block entry FIRST
(it sorts by block count, not by contribution to serialized size) and then
the huge one as well — it neither removes largest-first nor removes no more
than necessary. -/
theorem quota_eviction_counterexample :
    jsonSizeUBC entryXC4 ≤ MAX_CACHE_SIZE_BYTES ∧
      jsonSizeUBC entryYC4 ≤ MAX_CACHE_SIZE_BYTES ∧
      MAX_CACHE_SIZE_BYTES < estimateObjectSize cacheC4 ∧
      (estimateObjectSize cacheC4 : Int) - (jsonSizeUBC entryXC4 : Int) ≤
        (MAX_CACHE_SIZE_BYTES : Int) ∧
      jsonSizeUBC entryYC4 < jsonSizeUBC entryXC4 ∧
      (pruneCache cacheC4).userBlockCaches = [] := by
  refine ⟨?_, ?_, ?_, ?_, ?_, pruneCache_C4⟩
  · rw [jsonSizeUBC_XC4]
    norm_num [MAX_CACHE_SIZE_BYTES]
  · rw [jsonSizeUBC_YC4]
    norm_num [MAX_CACHE_SIZE_BYTES]
  · rw [estimateObjectSize_C4]
    norm_num [MAX_CACHE_SIZE_BYTES]
  · rw [estimateObjectSize_C4, jsonSizeUBC_XC4]
    norm_num [MAX_CACHE_SIZE_BYTES]
  · rw [jsonSizeUBC_XC4, jsonSizeUBC_YC4]
    norm_num

/-- Any environment and store (the `pruneCache` parts of the amended claim do
not depend on them). -/
def envC4w : SyncEnv :=
  { now := 0
    allFollows := .ok []
    userBlocks := fun _ => .ok none
    saveFails := fun _ => none }

def stC4w : Store := { syncStatus := none, blockCache := none, auth := none }

theorem quota_eviction_witness :
    estimateObjectSize (pruneCache cacheC4) ≤ MAX_CACHE_SIZE_BYTES := by
  refine (quota_eviction envC4w stC4w cacheC4 (by decide)).1 ?_
  rw [estimateObjectSize_C4, entriesSizeSum_C4]
  norm_num [MAX_CACHE_SIZE_BYTES]

/-- A followed user with did `d` and handle `h`. -/
def mkUserC7 (d h : String) : FollowedUser :=
  { did := d, handle := h, displayName := none, avatar := none }

/-- Ten followed users `d0` .. `d9`. -/
def followsC7x : List FollowedUser :=
  [mkUserC7 "d0" "h0", mkUserC7 "d1" "h1", mkUserC7 "d2" "h2", mkUserC7 "d3" "h3",
   mkUserC7 "d4" "h4", mkUserC7 "d5" "h5", mkUserC7 "d6" "h6", mkUserC7 "d7" "h7",
   mkUserC7 "d8" "h8", mkUserC7 "d9" "h9"]

/-- Session used by the C7 stores. -/
def sessionC7 : BskySession :=
  { accessJwt := "jwt", did := "did:me", handle := "me", pdsUrl := "p" }

/-- A fresh store: authenticated, no sync status, no persisted cache. -/
def storeC7 : Store :=
  { syncStatus := none
    blockCache := none
    auth := some sessionC7 }

/-- Fetches for `d0` and `d1` fail; the other eight succeed with an EMPTY
block list. -/
def envC7x : SyncEnv :=
  { now := 7
    allFollows := .ok followsC7x
    userBlocks := fun d => if d = "d0" ∨ d = "d1" then .error "boom" else .ok (some [])
    saveFails := fun _ => none }

/-- Fetches for `d0` and `d1` fail; the other eight succeed with a
nonempty block list. -/
def envC7 : SyncEnv :=
  { now := 7
    allFollows := .ok followsC7x
    userBlocks := fun d => if d = "d0" ∨ d = "d1" then .error "boom" else .ok (some ["bb"])
    saveFails := fun _ => none }

/-- Counterexample to C7 as stated: ten followed users, exactly two fetches
fail, the other eight succeed; the pass completes and `errors` has length 2,
yet the succeeded user `d5` has NO entry in the final cache, because its
fetch returned an empty list and such users are never stored. -/
theorem partial_fetch_counterexample :
    followsC7x.length = 10 ∧
      (followsC7x.filter fun u => exceptIsErr (envC7x.userBlocks u.did)).length = 2 ∧
      envC7x.userBlocks "d5" = .ok (some []) ∧
      (performFullSync envC7x storeC7).outcome = .completed ∧
      (getSyncStatusOf (performFullSync envC7x storeC7).store).errors.length = 2 ∧
      ((performFullSync envC7x storeC7).store.blockCache.map
        (fun c => c.userBlockCaches.lookup "d5")) = some none := by
  refine ⟨by decide, by decide, rfl, by decide, by decide, by decide⟩

theorem partial_fetch_failure_witness :
    (performFullSync envC7 storeC7).outcome = .completed ∧
      (getSyncStatusOf (performFullSync envC7 storeC7).store).errors.length = 2 ∧
      (∀ u ∈ followsC7x, (∃ r2, envC7.userBlocks u.did = .ok r2) →
        ∃ c, (performFullSync envC7 storeC7).store.blockCache = some c ∧
          c.userBlockCaches.lookup u.did ≠ none) :=
  partial_fetch_failure envC7 storeC7 sessionC7 followsC7x (by decide) rfl (by decide) rfl
    (by decide) (by decide)
    (by
      intro u hu r2 hr2
      fin_cases hu <;> simp_all [envC7, mkUserC7] <;> (subst hr2; decide))
    (fun _ => rfl)

end AskBeeves
